import Mathlib

/-!
Verification of the datagen prompt-processing pipeline.

This file gives a shallow embedding, in Lean, of the parts of the
TypeScript sources that the specification talks about:

* the pure helpers of `src/index.ts` (`formatAssistantContent`, the
  `--concurrent` handling inside `parseRawArgs` / `parseArgsFromRaw`);
* the OpenRouter pricing module (`src/openrouter.ts`:
  `safeParseNumber`, `isFiniteNumberString`, `getOpenRouterModelPricing`,
  `calculateOpenRouterSpendUSD`);
* the bounded-concurrency scheduler of `main` in `src/index.ts`
  (the in-flight set, `waitForSlot`, `schedule`, the promise-chain
  write queue `writeJsonlLine`, and the run counters), embedded as a
  small-step transition system whose steps are the atomic synchronous
  stretches between `await` suspension points of the JavaScript code.

JavaScript numbers are modelled by `ℚ`; the partial primitive
`Number(string)` is modelled by an arbitrary function
`jsNumber : String → Option ℚ` (`none` standing for a non-finite
result, i.e. `NaN` or `±Infinity`), since only finiteness and
comparisons of its results are ever used.  `String.prototype.trim` is
modelled by the list-level `jsTrim` below.
-/

/-! ## String primitives -/

/-- Model of `String.prototype.trim`: drop leading and trailing
whitespace. -/
def jsTrim (s : String) : String :=
  String.mk (((s.toList.dropWhile Char.isWhitespace).reverse.dropWhile
    Char.isWhitespace).reverse)

/-- Model of `token.startsWith("--")`. -/
def startsWithDashDash (s : String) : Bool :=
  match s.toList with
  | '-' :: '-' :: _ => true
  | _ => false

/-- Model of `token.slice(n)` for an ASCII-expressed token. -/
def jsSliceFrom (s : String) (n : Nat) : String :=
  String.mk (s.toList.drop n)

/-! ## Pure helpers from `src/index.ts` -/

/-- `formatAssistantContent` from `src/index.ts` (lines 253-257):
the assistant content is the raw completion text, prefixed by the
reasoning wrapped in `<think>...</think>` plus a newline exactly when a
reasoning string is present and trims to something non-empty. -/
def formatAssistantContent (content : String) (reasoning : Option String) : String :=
  match reasoning with
  | some r =>
      if 0 < (jsTrim r).length then "<think>" ++ r ++ "</think>\n" ++ content else content
  | none => content

/-- A raw CLI argument value as stored by `parseRawArgs`: either a string
or the boolean `true` (for a flag given without a value). -/
inductive RawVal where
  | str : String → RawVal
  | flagTrue : RawVal
deriving DecidableEq

/-- `parseRawArgs` from `src/index.ts` (lines 129-151), as the ordered
list of assignments `args[key] = value` it performs.  A token not
starting with `--` is skipped; `--key=value` splits at the first `=`
(dropping the assignment when the key is empty); a `--key` followed by
nothing, an empty string, or another `--`-token stores `true` without
consuming the next token; otherwise the next token is consumed as the
value. -/
def parseRawArgsList : List String → List (String × RawVal)
  | [] => []
  | [tok] =>
    if startsWithDashDash tok then
      match tok.toList.findIdx? (fun c => c == '=') with
      | some eqIdx =>
          let key := String.mk ((tok.toList.drop 2).take (eqIdx - 2))
          let value := String.mk (tok.toList.drop (eqIdx + 1))
          if 0 < key.length then [(key, RawVal.str value)] else []
      | none => [(jsSliceFrom tok 2, RawVal.flagTrue)]
    else []
  | tok :: next :: rest =>
    if startsWithDashDash tok then
      match tok.toList.findIdx? (fun c => c == '=') with
      | some eqIdx =>
          let key := String.mk ((tok.toList.drop 2).take (eqIdx - 2))
          let value := String.mk (tok.toList.drop (eqIdx + 1))
          if 0 < key.length then (key, RawVal.str value) :: parseRawArgsList (next :: rest)
          else parseRawArgsList (next :: rest)
      | none =>
          if next = "" ∨ startsWithDashDash next then
            (jsSliceFrom tok 2, RawVal.flagTrue) :: parseRawArgsList (next :: rest)
          else (jsSliceFrom tok 2, RawVal.str next) :: parseRawArgsList rest
    else parseRawArgsList (next :: rest)

/-- The value a JavaScript plain-object accumulation of the assignment
list ends up storing under `key`: the last assignment wins. -/
def lastRawValue (assigns : List (String × RawVal)) (key : String) : Option RawVal :=
  ((assigns.filter (fun p => p.1 == key)).getLast?).map Prod.snd

/-- `Number(raw)` on a raw argument value: strings go through the
abstract `jsNumber`, the boolean `true` coerces to `1`. -/
def jsNumberOfRawVal (jsNumber : String → Option ℚ) : RawVal → Option ℚ
  | RawVal.str s => jsNumber s
  | RawVal.flagTrue => some 1

/-- The `concurrent` computation of `parseArgsFromRaw` in
`src/index.ts` (lines 171-177): absent raw value gives `1`; otherwise
`Math.floor(Number(raw))` is kept when finite and strictly positive,
else `1`. -/
def parseConcurrentValue (jsNumber : String → Option ℚ) (concurrentRaw : Option RawVal) : Int :=
  match concurrentRaw with
  | none => 1
  | some v =>
    match (jsNumberOfRawVal jsNumber v).map Rat.floor with
    | some n => if 0 < n then n else 1
    | none => 1

/-- The parsed `concurrent` field for a full `argv`. -/
def argsConcurrent (jsNumber : String → Option ℚ) (argv : List String) : Int :=
  parseConcurrentValue jsNumber (lastRawValue (parseRawArgsList argv) "concurrent")

/-- `Math.max(1, concurrent)` from `src/index.ts` line 501. -/
def schedulerMaxConcurrent (concurrent : Int) : Int := max 1 concurrent

/-! ## The OpenRouter pricing module (`src/openrouter.ts`) -/

/-- The `usage` object of a completion response. -/
structure OpenRouterUsage where
  prompt_tokens : Option Nat
  completion_tokens : Option Nat
  total_tokens : Option Nat
deriving DecidableEq

/-- The raw `pricing` strings of a model entry (all fields optional). -/
structure RawPricingStrings where
  prompt : Option String
  completion : Option String
  request : Option String
deriving DecidableEq

/-- One entry of the `/models` listing. -/
structure OpenRouterModel where
  id : String
  canonical_slug : Option String
  pricing : Option RawPricingStrings
deriving DecidableEq

/-- The `known` flags of a resolved pricing. -/
structure KnownPricingFlags where
  prompt : Bool
  completion : Bool
  request : Bool
deriving DecidableEq

/-- `OpenRouterModelPricing` from `src/openrouter.ts`. -/
structure OpenRouterModelPricing where
  promptPerTokenUSD : ℚ
  completionPerTokenUSD : ℚ
  requestUSD : ℚ
  modelId : String
  canonicalSlug : Option String
  known : KnownPricingFlags
  raw : RawPricingStrings
deriving DecidableEq

/-- `safeParseNumber` from `src/openrouter.ts` (lines 35-38), restricted
to the `string | undefined` values it is applied to: a parse that is not
finite yields `0`. -/
def safeParseNumber (jsNumber : String → Option ℚ) : Option String → ℚ
  | some s => (jsNumber s).getD 0
  | none => 0

/-- `isFiniteNumberString` from `src/openrouter.ts` (lines 40-46). -/
def isFiniteNumberString (jsNumber : String → Option ℚ) : Option String → Bool
  | some s => (decide (0 < (jsTrim s).length)) && (jsNumber s).isSome
  | none => false

/-- The pricing record built at the end of `getOpenRouterModelPricing`
(lines 141-153) for a matched model `m` with pricing strings `pr`. -/
def mkModelPricing (jsNumber : String → Option ℚ) (m : OpenRouterModel)
    (pr : RawPricingStrings) : OpenRouterModelPricing :=
  { promptPerTokenUSD := safeParseNumber jsNumber pr.prompt
    completionPerTokenUSD := safeParseNumber jsNumber pr.completion
    requestUSD := safeParseNumber jsNumber pr.request
    modelId := m.id
    canonicalSlug := m.canonical_slug
    known :=
      { prompt := isFiniteNumberString jsNumber pr.prompt
        completion := isFiniteNumberString jsNumber pr.completion
        request := isFiniteNumberString jsNumber pr.request }
    raw := pr }

/-- `getOpenRouterModelPricing` from `src/openrouter.ts` (lines
119-154), after the model list has been fetched: resolve the queried
model and build its pricing record, or return `none`. -/
def getOpenRouterModelPricing (jsNumber : String → Option ℚ)
    (models : List OpenRouterModel) (modelIdOrSlug : String) :
    Option OpenRouterModelPricing :=
  let exact := models.find? (fun x => x.id == modelIdOrSlug)
  let slugMatches : List OpenRouterModel :=
    match exact with
    | some _ => []
    | none => models.filter (fun x => x.canonical_slug == some modelIdOrSlug)
  let m : Option OpenRouterModel :=
    match exact with
    | some e => some e
    | none =>
      match slugMatches.find? (fun x => some x.id == x.canonical_slug) with
      | some sm => some sm
      | none => slugMatches.head?
  match m with
  | none => none
  | some mm =>
    match mm.pricing with
    | none => none
    | some pr => some (mkModelPricing jsNumber mm pr)

/-- Modelled from the claim's words (spec §6, pricing lookup): resolve a
model by preferring an exact id match; failing that, among models whose
canonical slug equals the query prefer one whose id equals its own
canonical slug, else the first such match; absent when nothing matches. -/
def resolveModelByClaim (models : List OpenRouterModel) (q : String) :
    Option OpenRouterModel :=
  match models.find? (fun x => x.id == q) with
  | some e => some e
  | none =>
    let slugMatches := models.filter (fun x => x.canonical_slug == some q)
    match slugMatches.find? (fun x => some x.id == x.canonical_slug) with
    | some sm => some sm
    | none => slugMatches.head?

/-- `calculateOpenRouterSpendUSD` from `src/openrouter.ts` (lines
156-167): absent token counts default to `0`. -/
def calculateOpenRouterSpendUSD (pricing : OpenRouterModelPricing)
    (usage : Option OpenRouterUsage) : ℚ :=
  let promptTokens := (usage.bind (fun u => u.prompt_tokens)).getD 0
  let completionTokens := (usage.bind (fun u => u.completion_tokens)).getD 0
  pricing.requestUSD
    + (promptTokens : ℚ) * pricing.promptPerTokenUSD
    + (completionTokens : ℚ) * pricing.completionPerTokenUSD

/-! ## Claim C7 -/

lemma string_eq_empty_of_length_eq_zero {s : String} (h : s.length = 0) : s = "" := by
  cases s with
  | mk data =>
    cases data with
    | nil => rfl
    | cons a l => simp [String.length] at h

/-- Claim C7: the stored assistant content equals the raw completion
text when reasoning is absent or trims to empty, and equals the
reasoning wrapped in `<think>...</think>` followed by a newline and the
raw completion text when the reasoning trims non-empty. -/
theorem assistant_content_format (content : String) (reasoning : Option String) :
    (reasoning = none → formatAssistantContent content reasoning = content) ∧
    (∀ r, reasoning = some r → jsTrim r = "" →
      formatAssistantContent content reasoning = content) ∧
    (∀ r, reasoning = some r → jsTrim r ≠ "" →
      formatAssistantContent content reasoning =
        "<think>" ++ r ++ "</think>\n" ++ content) := by
  refine ⟨?_, ?_, ?_⟩
  · intro h; subst h; rfl
  · intro r h he; subst h
    simp only [formatAssistantContent, he]
    simp
  · intro r h hne; subst h
    have hlen : 0 < (jsTrim r).length := by
      by_contra hc
      push_neg at hc
      exact hne (string_eq_empty_of_length_eq_zero (Nat.le_zero.mp hc))
    simp only [formatAssistantContent, if_pos hlen]

/-- Witness for C7 at a concrete reasoning string. -/
theorem assistant_content_format_witness :
    jsTrim " why " ≠ "" ∧
    formatAssistantContent "ans" (some " why ") = "<think> why </think>\nans" := by
  refine ⟨by decide, (assistant_content_format "ans" (some " why ")).2.2 " why " rfl (by decide)⟩

/-! ## Claim C9 -/

lemma parseConcurrentValue_ge_one (jsNumber : String → Option ℚ)
    (raw : Option RawVal) : 1 ≤ parseConcurrentValue jsNumber raw := by
  unfold parseConcurrentValue
  split
  · exact le_refl 1
  · split
    · split <;> omega
    · exact le_refl 1

/-- Claim C9: the parsed concurrency value is always an integer `≥ 1`
(absent, non-numeric, and non-positive-after-flooring raw values all
fall back to `1`), and the scheduler's `Math.max(1, concurrent)` clamp
is also always `≥ 1`. -/
theorem concurrency_always_at_least_one :
    (∀ (jsNumber : String → Option ℚ) (argv : List String),
      1 ≤ argsConcurrent jsNumber argv) ∧
    (∀ jsNumber : String → Option ℚ, parseConcurrentValue jsNumber none = 1) ∧
    (∀ (jsNumber : String → Option ℚ) (v : RawVal),
      jsNumberOfRawVal jsNumber v = none →
      parseConcurrentValue jsNumber (some v) = 1) ∧
    (∀ (jsNumber : String → Option ℚ) (v : RawVal) (q : ℚ),
      jsNumberOfRawVal jsNumber v = some q → Rat.floor q ≤ 0 →
      parseConcurrentValue jsNumber (some v) = 1) ∧
    (∀ c : Int, 1 ≤ schedulerMaxConcurrent c) := by
  refine ⟨?_, ?_, ?_, ?_, ?_⟩
  · intro jsNumber argv; exact parseConcurrentValue_ge_one jsNumber _
  · intro jsNumber; rfl
  · intro jsNumber v h; simp [parseConcurrentValue, h]
  · intro jsNumber v q h hle
    have hmap : (jsNumberOfRawVal jsNumber v).map Rat.floor = some (Rat.floor q) := by
      rw [h]; rfl
    have hnot : ¬ 0 < Rat.floor q := by omega
    simp [parseConcurrentValue, hmap, hnot]
  · intro c; exact le_max_left 1 c

/-- Witness for C9: a non-numeric `--concurrent` value falls back
to `1`. -/
theorem concurrency_always_at_least_one_witness :
    jsNumberOfRawVal (fun _ => none) (RawVal.str "abc") = none ∧
    parseConcurrentValue (fun _ => none) (some (RawVal.str "abc")) = 1 :=
  ⟨rfl, concurrency_always_at_least_one.2.2.1 (fun _ => none) (RawVal.str "abc") rfl⟩

/-! ## Claim C10 -/

/-- Claim C10: the pricing lookup resolves a model exactly as described
— prefer an exact id match, else among canonical-slug matches prefer a
self-canonical one, else the first such match — and returns `none` when
no model matches or the matched model has no pricing object; each
per-unit rate is marked known exactly for non-empty finite-number
strings, and non-finite (or absent) raw rates parse to `0` and are
marked unknown. -/
theorem pricing_lookup_resolution (jsNumber : String → Option ℚ)
    (models : List OpenRouterModel) (q : String) :
    (getOpenRouterModelPricing jsNumber models q =
      (resolveModelByClaim models q).bind
        (fun m => m.pricing.map (mkModelPricing jsNumber m))) ∧
    (resolveModelByClaim models q = none →
      getOpenRouterModelPricing jsNumber models q = none) ∧
    (∀ m, resolveModelByClaim models q = some m → m.pricing = none →
      getOpenRouterModelPricing jsNumber models q = none) ∧
    (∀ s, isFiniteNumberString jsNumber (some s) =
      ((decide (0 < (jsTrim s).length)) && (jsNumber s).isSome)) ∧
    (∀ s, jsNumber s = none →
      safeParseNumber jsNumber (some s) = 0 ∧
      isFiniteNumberString jsNumber (some s) = false) ∧
    (safeParseNumber jsNumber none = 0 ∧
      isFiniteNumberString jsNumber none = false) := by
  have hmain : getOpenRouterModelPricing jsNumber models q =
      (resolveModelByClaim models q).bind
        (fun m => m.pricing.map (mkModelPricing jsNumber m)) := by
    unfold getOpenRouterModelPricing resolveModelByClaim
    cases hex : models.find? (fun x => x.id == q) with
    | some e =>
      simp only [hex]
      cases h : e.pricing <;> simp [h]
    | none =>
      simp only [hex]
      cases hsm : (models.filter (fun x => x.canonical_slug == some q)).find?
          (fun x => some x.id == x.canonical_slug) with
      | some sm =>
        simp only [hsm]
        cases h : sm.pricing <;> simp [h]
      | none =>
        simp only [hsm]
        cases hh : (models.filter (fun x => x.canonical_slug == some q)).head? with
        | none => rfl
        | some mm =>
          simp only [hh]
          cases h : mm.pricing <;> simp [h]
  refine ⟨hmain, ?_, ?_, ?_, ?_, ?_, ?_⟩
  · intro h; rw [hmain, h]; rfl
  · intro m hm hp; rw [hmain, hm]; simp [hp]
  · intro s; rfl
  · intro s h
    constructor
    · simp [safeParseNumber, h]
    · simp [isFiniteNumberString, h]
  · rfl
  · rfl

/-- Witness for C10: a non-finite rate string parses to `0` and is
marked unknown. -/
theorem pricing_lookup_resolution_witness :
    ((fun _ => (none : Option ℚ)) "x") = none ∧
    safeParseNumber (fun _ => none) (some "x") = 0 ∧
    isFiniteNumberString (fun _ => none) (some "x") = false := by
  refine ⟨rfl, ?_⟩
  exact (pricing_lookup_resolution (fun _ => none) [] "q").2.2.2.2.1 "x" rfl

/-! ## The remote call boundary (`callOpenRouter`, `src/index.ts` 279-338)

Only the classification logic after the HTTP round trip is modelled:
the round trip itself is an oracle value (`FetchOutcome`). -/

/-- The successful result of `callOpenRouter`. -/
structure CallSuccess where
  content : String
  reasoning : Option String
  usage : Option OpenRouterUsage
deriving DecidableEq

/-- The JavaScript value found at `choices[0].message.content`: absent,
a string, or some non-string value. -/
inductive JsContent where
  | absent : JsContent
  | str : String → JsContent
  | nonStr : JsContent
deriving DecidableEq

/-- The parsed body of a completion response. -/
structure RespBody where
  content : JsContent
  reasoning : Option String
  usage : Option OpenRouterUsage
deriving DecidableEq

/-- The outcome of the `fetch` round trip: a network error, or a
response with its `ok` flag, status code, error text and parsed body. -/
inductive FetchOutcome where
  | netErr : String → FetchOutcome
  | resp : Bool → Nat → String → RespBody → FetchOutcome
deriving DecidableEq

/-- The classification performed by `callOpenRouter` (lines 317-337):
a rejected fetch propagates; `!res.ok` throws `OpenRouter error
<status>: <text>`; an absent content becomes `""` via `?? ""`; a
non-string or empty content throws; otherwise the call succeeds. -/
def callOpenRouter : FetchOutcome → Except String CallSuccess
  | FetchOutcome.netErr msg => Except.error msg
  | FetchOutcome.resp false status text _ =>
      Except.error ("OpenRouter error " ++ toString status ++ ": " ++ text)
  | FetchOutcome.resp true _ _ body =>
      let content : Option String :=
        match body.content with
        | JsContent.str s => some s
        | JsContent.absent => some ""
        | JsContent.nonStr => none
      match content with
      | none => Except.error "No assistant content returned from OpenRouter."
      | some s =>
        if s.length = 0 then
          Except.error "No assistant content returned from OpenRouter."
        else Except.ok ⟨s, body.reasoning, body.usage⟩

/-! ## The scheduler of `main` (`src/index.ts` 478-597) as a
small-step transition system

Each step is one of the atomic synchronous stretches of the JavaScript
event loop between `await` suspension points:

* reading a blank line / reading a non-blank line and starting a task
  (the `for await` loop body; starting requires `waitForSlot` to have
  observed the in-flight set strictly below the bound);
* a task's remote call settling: on failure the `catch`/`finally`
  blocks run (`errCount++; completed++`); on success the synchronous
  stretch after the `await` runs (spend update, serialization, and the
  `writeJsonlLine` enqueue onto the promise chain);
* the write queue performing the head write: a successful write resumes
  the owning task (`okCount++; completed++`); a failed write breaks the
  chain and resumes the owner through its `catch` (`errCount++;
  completed++`); once the chain is broken every queued or later `await
  writeJsonlLine` rejects without issuing a write (`errCount++;
  completed++`);
* a settled task's `p.finally` callback deleting it from the in-flight
  set.

`enqueued` and `dropped` are ghost history fields: `enqueued` records
every `append` call (promise-chain link) in call order; `dropped`
records the links that rejected.  `writeFails k` says whether the k-th
write actually issued to the file stream reports an error. -/

/-- The per-task phase of the embedded scheduler. -/
inductive TaskPhase where
  | unstarted : TaskPhase
  | calling : TaskPhase
  | queued : TaskPhase
  | settled : Bool → TaskPhase
  | removed : Bool → TaskPhase
deriving DecidableEq

/-- A task counted by the in-flight set (`inFlight` in the source:
from `inFlight.add(p)` until its `p.finally` delete runs). -/
def TaskPhase.isInFlight : TaskPhase → Bool
  | TaskPhase.calling => true
  | TaskPhase.queued => true
  | TaskPhase.settled _ => true
  | _ => false

/-- A task whose body has finished (counters updated). -/
def TaskPhase.isDone : TaskPhase → Bool
  | TaskPhase.settled _ => true
  | TaskPhase.removed _ => true
  | _ => false

/-- A task that finished successfully. -/
def TaskPhase.isDoneOk : TaskPhase → Bool
  | TaskPhase.settled true => true
  | TaskPhase.removed true => true
  | _ => false

/-- A task that finished with a recorded error. -/
def TaskPhase.isDoneErr : TaskPhase → Bool
  | TaskPhase.settled false => true
  | TaskPhase.removed false => true
  | _ => false

/-- A task whose remote call has settled. -/
def TaskPhase.isResponded : TaskPhase → Bool
  | TaskPhase.queued => true
  | TaskPhase.settled _ => true
  | TaskPhase.removed _ => true
  | _ => false

/-- Termination weight of a phase. -/
def TaskPhase.weight : TaskPhase → Nat
  | TaskPhase.unstarted => 0
  | TaskPhase.calling => 3
  | TaskPhase.queued => 2
  | TaskPhase.settled _ => 1
  | TaskPhase.removed _ => 0

@[simp] lemma TaskPhase.isResponded_unstarted : TaskPhase.unstarted.isResponded = false := rfl

@[simp] lemma TaskPhase.isResponded_calling : TaskPhase.calling.isResponded = false := rfl

@[simp] lemma TaskPhase.isResponded_queued : TaskPhase.queued.isResponded = true := rfl

@[simp] lemma TaskPhase.isResponded_settled (b : Bool) :
    (TaskPhase.settled b).isResponded = true := rfl

@[simp] lemma TaskPhase.isResponded_removed (b : Bool) :
    (TaskPhase.removed b).isResponded = true := rfl

@[simp] lemma TaskPhase.weight_unstarted : TaskPhase.unstarted.weight = 0 := rfl

@[simp] lemma TaskPhase.weight_calling : TaskPhase.calling.weight = 3 := rfl

@[simp] lemma TaskPhase.weight_queued : TaskPhase.queued.weight = 2 := rfl

@[simp] lemma TaskPhase.weight_settled (b : Bool) : (TaskPhase.settled b).weight = 1 := rfl

@[simp] lemma TaskPhase.weight_removed (b : Bool) : (TaskPhase.removed b).weight = 0 := rfl

/-- The fixed data of one run. -/
structure SchedEnv where
  lines : List String
  maxConcurrent : Nat
  pricing : Option OpenRouterModelPricing
  fetches : Nat → FetchOutcome
  writeFails : Nat → Bool

/-- `canTrackSpend` from `src/index.ts` (lines 490-492). -/
def canTrackSpend (e : SchedEnv) : Bool :=
  match e.pricing with
  | some p => p.known.prompt && p.known.completion && p.known.request
  | none => false

/-- The spend added after a successful call (`src/index.ts` 539-541). -/
def spendDelta (e : SchedEnv) (usage : Option OpenRouterUsage) : ℚ :=
  match e.pricing with
  | some p => if canTrackSpend e then calculateOpenRouterSpendUSD p usage else 0
  | none => 0

/-- The spend task `i` contributes over the whole run. -/
def callDelta (e : SchedEnv) (i : Nat) : ℚ :=
  match callOpenRouter (e.fetches i) with
  | Except.ok cs => spendDelta e cs.usage
  | Except.error _ => 0

/-- The mutable state of a run. -/
structure SchedSt where
  remaining : List String
  lineNum : Nat
  nextIndex : Nat
  phase : Nat → TaskPhase
  completed : Nat
  okCount : Nat
  errCount : Nat
  wq : List Nat
  written : List Nat
  enqueued : List Nat
  dropped : List Nat
  broken : Bool
  spentUsd : ℚ

/-- Number of indices below `n` whose phase satisfies `p`. -/
def phaseCount (n : Nat) (f : Nat → TaskPhase) (p : TaskPhase → Bool) : Nat :=
  ((List.range n).map (fun i => if p (f i) then 1 else 0)).sum

/-- The size of the in-flight set. -/
def inFlightCount (s : SchedSt) : Nat :=
  phaseCount s.nextIndex s.phase TaskPhase.isInFlight

/-- The spend ledger implied by the phases. -/
def spentSpec (e : SchedEnv) (s : SchedSt) : ℚ :=
  ((List.range s.nextIndex).map
    (fun i => if (s.phase i).isResponded then callDelta e i else 0)).sum

/-- Reading a blank line (`lineNum++; continue`). -/
def skipBlankSt (s : SchedSt) (rest : List String) : SchedSt :=
  { s with remaining := rest, lineNum := s.lineNum + 1 }

/-- Reading a non-blank line and starting its task (`schedule`). -/
def startTaskSt (s : SchedSt) (rest : List String) : SchedSt :=
  { s with
    remaining := rest
    lineNum := s.lineNum + 1
    phase := Function.update s.phase s.nextIndex TaskPhase.calling
    nextIndex := s.nextIndex + 1 }

/-- A failed remote call settling (`catch`/`finally`). -/
def respondFailSt (s : SchedSt) (i : Nat) : SchedSt :=
  { s with
    phase := Function.update s.phase i (TaskPhase.settled false)
    errCount := s.errCount + 1
    completed := s.completed + 1 }

/-- A successful remote call settling: spend update and `append`. -/
def respondOkSt (e : SchedEnv) (s : SchedSt) (i : Nat)
    (usage : Option OpenRouterUsage) : SchedSt :=
  { s with
    phase := Function.update s.phase i TaskPhase.queued
    wq := s.wq ++ [i]
    enqueued := s.enqueued ++ [i]
    spentUsd := s.spentUsd + spendDelta e usage }

/-- The head write succeeding and resuming its owner. -/
def writeOkSt (s : SchedSt) (i : Nat) (rest : List Nat) : SchedSt :=
  { s with
    wq := rest
    written := s.written ++ [i]
    phase := Function.update s.phase i (TaskPhase.settled true)
    okCount := s.okCount + 1
    completed := s.completed + 1 }

/-- The head write failing: the chain breaks, the owner's `catch`
records the error. -/
def writeErrSt (s : SchedSt) (i : Nat) (rest : List Nat) : SchedSt :=
  { s with
    wq := rest
    dropped := s.dropped ++ [i]
    broken := true
    phase := Function.update s.phase i (TaskPhase.settled false)
    errCount := s.errCount + 1
    completed := s.completed + 1 }

/-- A link behind a broken chain rejecting without issuing a write. -/
def writeRejSt (s : SchedSt) (i : Nat) (rest : List Nat) : SchedSt :=
  { s with
    wq := rest
    dropped := s.dropped ++ [i]
    phase := Function.update s.phase i (TaskPhase.settled false)
    errCount := s.errCount + 1
    completed := s.completed + 1 }

/-- A settled task's `p.finally` delete from the in-flight set. -/
def removeSt (s : SchedSt) (i : Nat) (b : Bool) : SchedSt :=
  { s with phase := Function.update s.phase i (TaskPhase.removed b) }

/-- One event-loop step of the run. -/
inductive SchedStep (e : SchedEnv) : SchedSt → SchedSt → Prop where
  | skipBlank (s : SchedSt) (l : String) (rest : List String) :
      s.remaining = l :: rest → jsTrim l = "" →
      SchedStep e s (skipBlankSt s rest)
  | startTask (s : SchedSt) (l : String) (rest : List String) :
      s.remaining = l :: rest → jsTrim l ≠ "" →
      inFlightCount s < e.maxConcurrent →
      SchedStep e s (startTaskSt s rest)
  | respondFail (s : SchedSt) (i : Nat) (msg : String) :
      s.phase i = TaskPhase.calling →
      callOpenRouter (e.fetches i) = Except.error msg →
      SchedStep e s (respondFailSt s i)
  | respondOk (s : SchedSt) (i : Nat) (cs : CallSuccess) :
      s.phase i = TaskPhase.calling →
      callOpenRouter (e.fetches i) = Except.ok cs →
      SchedStep e s (respondOkSt e s i cs.usage)
  | writeOk (s : SchedSt) (i : Nat) (rest : List Nat) :
      s.wq = i :: rest → s.broken = false →
      e.writeFails s.written.length = false →
      SchedStep e s (writeOkSt s i rest)
  | writeErr (s : SchedSt) (i : Nat) (rest : List Nat) :
      s.wq = i :: rest → s.broken = false →
      e.writeFails s.written.length = true →
      SchedStep e s (writeErrSt s i rest)
  | writeRej (s : SchedSt) (i : Nat) (rest : List Nat) :
      s.wq = i :: rest → s.broken = true →
      SchedStep e s (writeRejSt s i rest)
  | removeTask (s : SchedSt) (i : Nat) (b : Bool) :
      s.phase i = TaskPhase.settled b →
      SchedStep e s (removeSt s i b)

/-- The state at the start of the run. -/
def initSt (e : SchedEnv) : SchedSt :=
  { remaining := e.lines
    lineNum := 0
    nextIndex := 0
    phase := fun _ => TaskPhase.unstarted
    completed := 0
    okCount := 0
    errCount := 0
    wq := []
    written := []
    enqueued := []
    dropped := []
    broken := false
    spentUsd := 0 }

/-- States the run can be in. -/
def SchedReachable (e : SchedEnv) (s : SchedSt) : Prop :=
  Relation.ReflTransGen (SchedStep e) (initSt e) s

/-- The run has ended: the source is exhausted and the drain loop's
`inFlight.size > 0` test fails. -/
def SchedTerminal (s : SchedSt) : Prop :=
  s.remaining = [] ∧ inFlightCount s = 0

/-- Count of non-blank lines of a line list. -/
def countNonBlank (lines : List String) : Nat :=
  (lines.filter (fun l => decide (jsTrim l ≠ ""))).length

/-- Non-blank lines read from the source so far. -/
def nonBlankRead (e : SchedEnv) (s : SchedSt) : Nat :=
  countNonBlank e.lines - countNonBlank s.remaining

/-! ## Counting lemmas -/

lemma sum_range_map_update {M : Type} [AddCommMonoid M] (g : Nat → TaskPhase → M)
    (f : Nat → TaskPhase) (v : TaskPhase) :
    ∀ n i, i < n →
    ((List.range n).map (fun j => g j (Function.update f i v j))).sum + g i (f i)
      = ((List.range n).map (fun j => g j (f j))).sum + g i v := by
  intro n
  induction n with
  | zero => intro i h; omega
  | succ n ih =>
    intro i h
    rw [List.range_succ, List.map_append, List.map_append,
        List.sum_append, List.sum_append]
    simp only [List.map_cons, List.map_nil, List.sum_cons, List.sum_nil, add_zero]
    by_cases hi : i = n
    · subst hi
      have hpre : (List.range i).map (fun j => g j (Function.update f i v j))
          = (List.range i).map (fun j => g j (f j)) := by
        apply List.map_congr_left
        intro j hj
        have hne : j ≠ i := by have := List.mem_range.mp hj; omega
        rw [Function.update_noteq hne]
      rw [hpre, Function.update_same]
      abel
    · have hni : i < n := by omega
      have hrec := ih i hni
      have hupd : Function.update f i v n = f n :=
        Function.update_noteq (fun hc => hi hc.symm) _ _
      rw [hupd]
      calc ((List.range n).map (fun j => g j (Function.update f i v j))).sum
            + g n (f n) + g i (f i)
          = ((List.range n).map (fun j => g j (Function.update f i v j))).sum
            + g i (f i) + g n (f n) := by abel
        _ = ((List.range n).map (fun j => g j (f j))).sum + g i v + g n (f n) := by
            rw [hrec]
        _ = ((List.range n).map (fun j => g j (f j))).sum + g n (f n) + g i v := by abel

lemma sum_range_map_snoc {M : Type} [AddCommMonoid M] (g : Nat → TaskPhase → M)
    (f : Nat → TaskPhase) (v : TaskPhase) (n : Nat) :
    ((List.range (n+1)).map (fun j => g j (Function.update f n v j))).sum
      = ((List.range n).map (fun j => g j (f j))).sum + g n v := by
  rw [List.range_succ, List.map_append, List.sum_append]
  simp only [List.map_cons, List.map_nil, List.sum_cons, List.sum_nil, add_zero]
  congr 1
  · apply congrArg
    apply List.map_congr_left
    intro j hj
    have hne : j ≠ n := by have := List.mem_range.mp hj; omega
    rw [Function.update_noteq hne]
  · rw [Function.update_same]

lemma phaseCount_update (n : Nat) (f : Nat → TaskPhase) (v : TaskPhase) (i : Nat)
    (h : i < n) (p : TaskPhase → Bool) :
    phaseCount n (Function.update f i v) p + (if p (f i) then 1 else 0)
      = phaseCount n f p + (if p v then 1 else 0) :=
  sum_range_map_update (fun _ ph => if p ph then 1 else 0) f v n i h

lemma phaseCount_snoc (n : Nat) (f : Nat → TaskPhase) (v : TaskPhase)
    (p : TaskPhase → Bool) :
    phaseCount (n+1) (Function.update f n v) p
      = phaseCount n f p + (if p v then 1 else 0) :=
  sum_range_map_snoc (fun _ ph => if p ph then 1 else 0) f v n

lemma phaseCount_le (n : Nat) (f : Nat → TaskPhase) (p : TaskPhase → Bool) :
    phaseCount n f p ≤ n := by
  induction n with
  | zero => exact le_refl 0
  | succ n ih =>
    have : phaseCount (n+1) f p = phaseCount n f p + (if p (f n) then 1 else 0) := by
      unfold phaseCount
      rw [List.range_succ, List.map_append, List.sum_append]
      simp
    rw [this]
    by_cases h : p (f n) = true <;> simp [h] <;> omega

lemma phaseCount_succ (n : Nat) (f : Nat → TaskPhase) (p : TaskPhase → Bool) :
    phaseCount (n+1) f p = phaseCount n f p + (if p (f n) then 1 else 0) := by
  unfold phaseCount
  rw [List.range_succ, List.map_append, List.sum_append]
  simp

lemma phaseCount_eq_zero_iff (n : Nat) (f : Nat → TaskPhase) (p : TaskPhase → Bool) :
    phaseCount n f p = 0 ↔ ∀ i, i < n → p (f i) = false := by
  induction n with
  | zero => simp [phaseCount]
  | succ n ih =>
    rw [phaseCount_succ]
    constructor
    · intro h i hi
      have h1 : phaseCount n f p = 0 := by omega
      rcases Nat.lt_succ_iff_lt_or_eq.mp hi with hlt | heq
      · exact (ih.mp h1) i hlt
      · subst heq
        by_cases hp : p (f i) = true
        · rw [if_pos hp] at h; omega
        · simpa using hp
    · intro h
      have h1 : ∀ i, i < n → p (f i) = false := fun i hi => h i (by omega)
      have h2 : p (f n) = false := h n (by omega)
      rw [ih.mpr h1, h2]
      simp

lemma phaseCount_eq_of_all (n : Nat) (f : Nat → TaskPhase) (p : TaskPhase → Bool)
    (h : ∀ i, i < n → p (f i) = true) : phaseCount n f p = n := by
  induction n with
  | zero => rfl
  | succ n ih =>
    rw [phaseCount_succ, ih (fun i hi => h i (by omega)), h n (by omega)]
    simp

lemma spentSpec_update (e : SchedEnv) (n : Nat) (f : Nat → TaskPhase)
    (v : TaskPhase) (i : Nat) (h : i < n) :
    ((List.range n).map
      (fun j => if (Function.update f i v j).isResponded then callDelta e j else 0)).sum
      + (if (f i).isResponded then callDelta e i else 0)
      = ((List.range n).map
          (fun j => if (f j).isResponded then callDelta e j else 0)).sum
        + (if v.isResponded then callDelta e i else 0) :=
  sum_range_map_update (fun j ph => if ph.isResponded then callDelta e j else 0) f v n i h

lemma spentSpec_snoc (e : SchedEnv) (n : Nat) (f : Nat → TaskPhase) (v : TaskPhase) :
    ((List.range (n+1)).map
      (fun j => if (Function.update f n v j).isResponded then callDelta e j else 0)).sum
      = ((List.range n).map
          (fun j => if (f j).isResponded then callDelta e j else 0)).sum
        + (if v.isResponded then callDelta e n else 0) :=
  sum_range_map_snoc (fun j ph => if ph.isResponded then callDelta e j else 0) f v n

lemma countNonBlank_cons (l : String) (rest : List String) :
    countNonBlank (l :: rest)
      = countNonBlank rest + (if jsTrim l ≠ "" then 1 else 0) := by
  unfold countNonBlank
  by_cases h : jsTrim l ≠ "" <;> simp [List.filter_cons, h]

lemma callDelta_error (e : SchedEnv) (i : Nat) (msg : String)
    (h : callOpenRouter (e.fetches i) = Except.error msg) : callDelta e i = 0 := by
  simp [callDelta, h]

lemma callDelta_ok (e : SchedEnv) (i : Nat) (cs : CallSuccess)
    (h : callOpenRouter (e.fetches i) = Except.ok cs) :
    callDelta e i = spendDelta e cs.usage := by
  simp [callDelta, h]

/-! ## The run invariant -/

/-- The inductive invariant of the scheduler's transition system. -/
structure SchedInv (e : SchedEnv) (s : SchedSt) : Prop where
  hub : ∀ i, s.nextIndex ≤ i → s.phase i = TaskPhase.unstarted
  hstarted : ∀ i, i < s.nextIndex → s.phase i ≠ TaskPhase.unstarted
  hcompleted : s.completed = phaseCount s.nextIndex s.phase TaskPhase.isDone
  hok : s.okCount = phaseCount s.nextIndex s.phase TaskPhase.isDoneOk
  herr : s.errCount = phaseCount s.nextIndex s.phase TaskPhase.isDoneErr
  hbound : inFlightCount s ≤ e.maxConcurrent
  hlines : countNonBlank e.lines = s.nextIndex + countNonBlank s.remaining
  hsplit : s.enqueued = s.written ++ (s.dropped ++ s.wq)
  hdropped : s.broken = false → s.dropped = []
  hwqPhase : ∀ i, i ∈ s.wq → s.phase i = TaskPhase.queued
  hqueuedInWq : ∀ i, s.phase i = TaskPhase.queued → i ∈ s.wq
  hwqNodup : s.wq.Nodup
  hwritten : ∀ i, i ∈ s.written → (s.phase i).isDoneOk = true
  hspent : s.spentUsd = spentSpec e s

lemma lt_nextIndex_of_phase {e : SchedEnv} {s : SchedSt} (inv : SchedInv e s)
    {i : Nat} {ph : TaskPhase} (h : s.phase i = ph)
    (hne : ph ≠ TaskPhase.unstarted) : i < s.nextIndex := by
  by_contra hge
  push_neg at hge
  rw [inv.hub i hge] at h
  exact hne h.symm

lemma schedInv_init (e : SchedEnv) : SchedInv e (initSt e) := by
  refine ⟨?_, ?_, rfl, rfl, rfl, ?_, ?_, rfl, ?_, ?_, ?_, ?_, ?_, rfl⟩
  · intro i _; rfl
  · intro i h; exact absurd h (Nat.not_lt_zero i)
  · exact Nat.zero_le _
  · exact (Nat.zero_add _).symm
  · intro _; rfl
  · intro i h; exact absurd h (List.not_mem_nil i)
  · intro i h; simp [initSt] at h
  · exact List.nodup_nil
  · intro i h; exact absurd h (List.not_mem_nil i)

theorem schedStep_inv {e : SchedEnv} {s s' : SchedSt}
    (inv : SchedInv e s) (hstep : SchedStep e s s') : SchedInv e s' := by
  cases hstep with
  | skipBlank l rest hrem hblank =>
    refine ⟨inv.hub, inv.hstarted, inv.hcompleted, inv.hok, inv.herr, inv.hbound, ?_,
      inv.hsplit, inv.hdropped, inv.hwqPhase, inv.hqueuedInWq, inv.hwqNodup,
      inv.hwritten, inv.hspent⟩
    have h1 := inv.hlines
    rw [hrem, countNonBlank_cons] at h1
    have hz : (if jsTrim l ≠ "" then 1 else 0) = 0 := by simp [hblank]
    rw [hz] at h1
    simp only [skipBlankSt]
    omega
  | startTask l rest hrem hnb hlt =>
    have hn : s.phase s.nextIndex = TaskPhase.unstarted := inv.hub s.nextIndex (le_refl _)
    refine ⟨?_, ?_, ?_, ?_, ?_, ?_, ?_, inv.hsplit, inv.hdropped, ?_, ?_, inv.hwqNodup,
      ?_, ?_⟩
    · intro i hi
      simp only [startTaskSt] at hi ⊢
      rw [Function.update_noteq (by omega : i ≠ s.nextIndex)]
      exact inv.hub i (by omega)
    · intro i hi
      simp only [startTaskSt] at hi ⊢
      by_cases hie : i = s.nextIndex
      · subst hie
        rw [Function.update_same]
        exact fun hc => absurd hc (by decide)
      · rw [Function.update_noteq hie]
        exact inv.hstarted i (by omega)
    · simp only [startTaskSt]
      rw [phaseCount_snoc]
      simpa [TaskPhase.isDone] using inv.hcompleted
    · simp only [startTaskSt]
      rw [phaseCount_snoc]
      simpa [TaskPhase.isDoneOk] using inv.hok
    · simp only [startTaskSt]
      rw [phaseCount_snoc]
      simpa [TaskPhase.isDoneErr] using inv.herr
    · have hcnt : inFlightCount (startTaskSt s rest) = inFlightCount s + 1 := by
        unfold inFlightCount
        simp only [startTaskSt]
        rw [phaseCount_snoc]
        simp [TaskPhase.isInFlight]
      rw [hcnt]
      omega
    · have h1 := inv.hlines
      rw [hrem, countNonBlank_cons] at h1
      have ho : (if jsTrim l ≠ "" then 1 else 0) = 1 := if_pos hnb
      rw [ho] at h1
      simp only [startTaskSt]
      omega
    · intro i hi
      have hq := inv.hwqPhase i hi
      have hne : i ≠ s.nextIndex := by
        intro hc; subst hc
        rw [hn] at hq
        exact absurd hq (by decide)
      simp only [startTaskSt]
      rw [Function.update_noteq hne]
      exact hq
    · intro i hqi
      simp only [startTaskSt] at hqi
      by_cases hie : i = s.nextIndex
      · subst hie
        rw [Function.update_same] at hqi
        exact absurd hqi (by decide)
      · rw [Function.update_noteq hie] at hqi
        exact inv.hqueuedInWq i hqi
    · intro i hi
      have hw := inv.hwritten i hi
      have hne : i ≠ s.nextIndex := by
        intro hc; subst hc
        rw [hn] at hw
        exact absurd hw (by decide)
      simp only [startTaskSt]
      rw [Function.update_noteq hne]
      exact hw
    · show s.spentUsd = spentSpec e (startTaskSt s rest)
      unfold spentSpec
      simp only [startTaskSt]
      rw [spentSpec_snoc]
      have : s.spentUsd = spentSpec e s := inv.hspent
      unfold spentSpec at this
      simpa [TaskPhase.isResponded] using this
  | respondFail i msg hc hcall =>
    have hlt : i < s.nextIndex := lt_nextIndex_of_phase inv hc (by decide)
    refine ⟨?_, ?_, ?_, ?_, ?_, ?_, inv.hlines, inv.hsplit, inv.hdropped, ?_, ?_,
      inv.hwqNodup, ?_, ?_⟩
    · intro j hj
      simp only [respondFailSt] at hj ⊢
      rw [Function.update_noteq (by omega : j ≠ i)]
      exact inv.hub j hj
    · intro j hj
      simp only [respondFailSt] at hj ⊢
      by_cases hje : j = i
      · subst hje; rw [Function.update_same]; exact fun h => absurd h (by decide)
      · rw [Function.update_noteq hje]; exact inv.hstarted j hj
    · have hu := phaseCount_update s.nextIndex s.phase (TaskPhase.settled false) i hlt
        TaskPhase.isDone
      rw [hc] at hu
      simp only [TaskPhase.isDone] at hu
      have hcmp := inv.hcompleted
      simp only [respondFailSt]
      simp at hu
      omega
    · have hu := phaseCount_update s.nextIndex s.phase (TaskPhase.settled false) i hlt
        TaskPhase.isDoneOk
      rw [hc] at hu
      simp only [TaskPhase.isDoneOk] at hu
      have hokk := inv.hok
      simp only [respondFailSt]
      simp at hu
      omega
    · have hu := phaseCount_update s.nextIndex s.phase (TaskPhase.settled false) i hlt
        TaskPhase.isDoneErr
      rw [hc] at hu
      simp only [TaskPhase.isDoneErr] at hu
      have herr2 := inv.herr
      simp only [respondFailSt]
      simp at hu
      omega
    · have hu := phaseCount_update s.nextIndex s.phase (TaskPhase.settled false) i hlt
        TaskPhase.isInFlight
      rw [hc] at hu
      simp only [TaskPhase.isInFlight] at hu
      have hb := inv.hbound
      unfold inFlightCount at hb ⊢
      simp only [respondFailSt]
      simp at hu
      omega
    · intro j hj
      have hq := inv.hwqPhase j hj
      have hne : j ≠ i := by
        intro hx; subst hx; rw [hc] at hq; exact absurd hq (by decide)
      simp only [respondFailSt]
      rw [Function.update_noteq hne]
      exact hq
    · intro j hqj
      simp only [respondFailSt] at hqj
      by_cases hje : j = i
      · subst hje; rw [Function.update_same] at hqj; exact absurd hqj (by decide)
      · rw [Function.update_noteq hje] at hqj
        exact inv.hqueuedInWq j hqj
    · intro j hj
      have hw := inv.hwritten j hj
      have hne : j ≠ i := by
        intro hx; subst hx; rw [hc] at hw; exact absurd hw (by decide)
      simp only [respondFailSt]
      rw [Function.update_noteq hne]
      exact hw
    · have hu := spentSpec_update e s.nextIndex s.phase (TaskPhase.settled false) i hlt
      rw [hc] at hu
      rw [callDelta_error e i msg hcall] at hu
      have hsp := inv.hspent
      unfold spentSpec at hsp ⊢
      simp only [respondFailSt]
      simp at hu
      linarith
  | respondOk i cs hc hcall =>
    have hlt : i < s.nextIndex := lt_nextIndex_of_phase inv hc (by decide)
    have hninwq : i ∉ s.wq := by
      intro hx
      have := inv.hwqPhase i hx
      rw [hc] at this
      exact absurd this (by decide)
    refine ⟨?_, ?_, ?_, ?_, ?_, ?_, inv.hlines, ?_, inv.hdropped, ?_, ?_, ?_, ?_, ?_⟩
    · intro j hj
      simp only [respondOkSt] at hj ⊢
      rw [Function.update_noteq (by omega : j ≠ i)]
      exact inv.hub j hj
    · intro j hj
      simp only [respondOkSt] at hj ⊢
      by_cases hje : j = i
      · subst hje; rw [Function.update_same]; exact fun h => absurd h (by decide)
      · rw [Function.update_noteq hje]; exact inv.hstarted j hj
    · have hu := phaseCount_update s.nextIndex s.phase TaskPhase.queued i hlt
        TaskPhase.isDone
      rw [hc] at hu
      simp only [TaskPhase.isDone] at hu
      have hcmp := inv.hcompleted
      simp only [respondOkSt]
      simp at hu
      omega
    · have hu := phaseCount_update s.nextIndex s.phase TaskPhase.queued i hlt
        TaskPhase.isDoneOk
      rw [hc] at hu
      simp only [TaskPhase.isDoneOk] at hu
      have hokk := inv.hok
      simp only [respondOkSt]
      simp at hu
      omega
    · have hu := phaseCount_update s.nextIndex s.phase TaskPhase.queued i hlt
        TaskPhase.isDoneErr
      rw [hc] at hu
      simp only [TaskPhase.isDoneErr] at hu
      have herr2 := inv.herr
      simp only [respondOkSt]
      simp at hu
      omega
    · have hu := phaseCount_update s.nextIndex s.phase TaskPhase.queued i hlt
        TaskPhase.isInFlight
      rw [hc] at hu
      simp only [TaskPhase.isInFlight] at hu
      have hb := inv.hbound
      unfold inFlightCount at hb ⊢
      simp only [respondOkSt]
      simp at hu
      omega
    · simp only [respondOkSt]
      rw [inv.hsplit]
      simp [List.append_assoc]
    · intro j hj
      simp only [respondOkSt] at hj ⊢
      rcases List.mem_append.mp hj with hjl | hjr
      · have hq := inv.hwqPhase j hjl
        have hne : j ≠ i := by
          intro hx; subst hx; rw [hc] at hq; exact absurd hq (by decide)
        rw [Function.update_noteq hne]
        exact hq
      · have hji : j = i := by simpa using hjr
        subst hji
        rw [Function.update_same]
    · intro j hqj
      simp only [respondOkSt] at hqj ⊢
      by_cases hje : j = i
      · subst hje
        exact List.mem_append.mpr (Or.inr (by simp))
      · rw [Function.update_noteq hje] at hqj
        exact List.mem_append.mpr (Or.inl (inv.hqueuedInWq j hqj))
    · simp only [respondOkSt]
      rw [List.nodup_append]
      exact ⟨inv.hwqNodup, List.nodup_singleton i, by
        intro a ha hb
        have : a = i := by simpa using hb
        subst this
        exact hninwq ha⟩
    · intro j hj
      simp only [respondOkSt] at hj ⊢
      have hw := inv.hwritten j hj
      have hne : j ≠ i := by
        intro hx; subst hx; rw [hc] at hw; exact absurd hw (by decide)
      rw [Function.update_noteq hne]
      exact hw
    · have hu := spentSpec_update e s.nextIndex s.phase TaskPhase.queued i hlt
      rw [hc] at hu
      rw [callDelta_ok e i cs hcall] at hu
      have hsp := inv.hspent
      unfold spentSpec at hsp ⊢
      simp only [respondOkSt]
      simp at hu
      linarith
  | writeOk i rest hwq hbrk hwf =>
    have hq : s.phase i = TaskPhase.queued :=
      inv.hwqPhase i (by rw [hwq]; exact List.mem_cons_self i rest)
    have hlt : i < s.nextIndex := lt_nextIndex_of_phase inv hq (by decide)
    have hnd := inv.hwqNodup
    rw [hwq] at hnd
    have hnotin : i ∉ rest := (List.nodup_cons.mp hnd).1
    have hdrop : s.dropped = [] := inv.hdropped hbrk
    refine ⟨?_, ?_, ?_, ?_, ?_, ?_, inv.hlines, ?_, ?_, ?_, ?_, ?_, ?_, ?_⟩
    · intro j hj
      simp only [writeOkSt] at hj ⊢
      rw [Function.update_noteq (by omega : j ≠ i)]
      exact inv.hub j hj
    · intro j hj
      simp only [writeOkSt] at hj ⊢
      by_cases hje : j = i
      · subst hje; rw [Function.update_same]; exact fun h => absurd h (by decide)
      · rw [Function.update_noteq hje]; exact inv.hstarted j hj
    · have hu := phaseCount_update s.nextIndex s.phase (TaskPhase.settled true) i hlt
        TaskPhase.isDone
      rw [hq] at hu
      simp only [TaskPhase.isDone] at hu
      have hcmp := inv.hcompleted
      simp only [writeOkSt]
      simp at hu
      omega
    · have hu := phaseCount_update s.nextIndex s.phase (TaskPhase.settled true) i hlt
        TaskPhase.isDoneOk
      rw [hq] at hu
      simp only [TaskPhase.isDoneOk] at hu
      have hokk := inv.hok
      simp only [writeOkSt]
      simp at hu
      omega
    · have hu := phaseCount_update s.nextIndex s.phase (TaskPhase.settled true) i hlt
        TaskPhase.isDoneErr
      rw [hq] at hu
      simp only [TaskPhase.isDoneErr] at hu
      have herr2 := inv.herr
      simp only [writeOkSt]
      simp at hu
      omega
    · have hu := phaseCount_update s.nextIndex s.phase (TaskPhase.settled true) i hlt
        TaskPhase.isInFlight
      rw [hq] at hu
      simp only [TaskPhase.isInFlight] at hu
      have hb := inv.hbound
      unfold inFlightCount at hb ⊢
      simp only [writeOkSt]
      simp at hu
      omega
    · simp only [writeOkSt]
      rw [inv.hsplit, hwq, hdrop]
      simp
    · intro _
      simp only [writeOkSt]
      exact hdrop
    · intro j hj
      simp only [writeOkSt] at hj ⊢
      have hjrest : j ∈ s.wq := by rw [hwq]; exact List.mem_cons_of_mem i hj
      have hqj := inv.hwqPhase j hjrest
      have hne : j ≠ i := fun hx => hnotin (hx ▸ hj)
      rw [Function.update_noteq hne]
      exact hqj
    · intro j hqj
      simp only [writeOkSt] at hqj ⊢
      by_cases hje : j = i
      · subst hje; rw [Function.update_same] at hqj; exact absurd hqj (by decide)
      · rw [Function.update_noteq hje] at hqj
        have := inv.hqueuedInWq j hqj
        rw [hwq] at this
        rcases List.mem_cons.mp this with hx | hx
        · exact absurd hx hje
        · exact hx
    · simp only [writeOkSt]
      exact (List.nodup_cons.mp hnd).2
    · intro j hj
      simp only [writeOkSt] at hj ⊢
      rcases List.mem_append.mp hj with hjl | hjr
      · have hw := inv.hwritten j hjl
        have hne : j ≠ i := by
          intro hx; subst hx; rw [hq] at hw; exact absurd hw (by decide)
        rw [Function.update_noteq hne]
        exact hw
      · have hji : j = i := by simpa using hjr
        subst hji
        rw [Function.update_same]
        rfl
    · have hu := spentSpec_update e s.nextIndex s.phase (TaskPhase.settled true) i hlt
      rw [hq] at hu
      have hsp := inv.hspent
      unfold spentSpec at hsp ⊢
      simp only [writeOkSt]
      simp at hu
      linarith
  | writeErr i rest hwq hbrk hwf =>
    have hq : s.phase i = TaskPhase.queued :=
      inv.hwqPhase i (by rw [hwq]; exact List.mem_cons_self i rest)
    have hlt : i < s.nextIndex := lt_nextIndex_of_phase inv hq (by decide)
    have hnd := inv.hwqNodup
    rw [hwq] at hnd
    have hnotin : i ∉ rest := (List.nodup_cons.mp hnd).1
    have hdrop : s.dropped = [] := inv.hdropped hbrk
    refine ⟨?_, ?_, ?_, ?_, ?_, ?_, inv.hlines, ?_, ?_, ?_, ?_, ?_, ?_, ?_⟩
    · intro j hj
      simp only [writeErrSt] at hj ⊢
      rw [Function.update_noteq (by omega : j ≠ i)]
      exact inv.hub j hj
    · intro j hj
      simp only [writeErrSt] at hj ⊢
      by_cases hje : j = i
      · subst hje; rw [Function.update_same]; exact fun h => absurd h (by decide)
      · rw [Function.update_noteq hje]; exact inv.hstarted j hj
    · have hu := phaseCount_update s.nextIndex s.phase (TaskPhase.settled false) i hlt
        TaskPhase.isDone
      rw [hq] at hu
      simp only [TaskPhase.isDone] at hu
      have hcmp := inv.hcompleted
      simp only [writeErrSt]
      simp at hu
      omega
    · have hu := phaseCount_update s.nextIndex s.phase (TaskPhase.settled false) i hlt
        TaskPhase.isDoneOk
      rw [hq] at hu
      simp only [TaskPhase.isDoneOk] at hu
      have hokk := inv.hok
      simp only [writeErrSt]
      simp at hu
      omega
    · have hu := phaseCount_update s.nextIndex s.phase (TaskPhase.settled false) i hlt
        TaskPhase.isDoneErr
      rw [hq] at hu
      simp only [TaskPhase.isDoneErr] at hu
      have herr2 := inv.herr
      simp only [writeErrSt]
      simp at hu
      omega
    · have hu := phaseCount_update s.nextIndex s.phase (TaskPhase.settled false) i hlt
        TaskPhase.isInFlight
      rw [hq] at hu
      simp only [TaskPhase.isInFlight] at hu
      have hb := inv.hbound
      unfold inFlightCount at hb ⊢
      simp only [writeErrSt]
      simp at hu
      omega
    · simp only [writeErrSt]
      rw [inv.hsplit, hwq, hdrop]
      simp
    · intro hb
      simp only [writeErrSt] at hb
      exact absurd hb (by decide)
    · intro j hj
      simp only [writeErrSt] at hj ⊢
      have hjrest : j ∈ s.wq := by rw [hwq]; exact List.mem_cons_of_mem i hj
      have hqj := inv.hwqPhase j hjrest
      have hne : j ≠ i := fun hx => hnotin (hx ▸ hj)
      rw [Function.update_noteq hne]
      exact hqj
    · intro j hqj
      simp only [writeErrSt] at hqj ⊢
      by_cases hje : j = i
      · subst hje; rw [Function.update_same] at hqj; exact absurd hqj (by decide)
      · rw [Function.update_noteq hje] at hqj
        have := inv.hqueuedInWq j hqj
        rw [hwq] at this
        rcases List.mem_cons.mp this with hx | hx
        · exact absurd hx hje
        · exact hx
    · simp only [writeErrSt]
      exact (List.nodup_cons.mp hnd).2
    · intro j hj
      simp only [writeErrSt] at hj ⊢
      have hw := inv.hwritten j hj
      have hne : j ≠ i := by
        intro hx; subst hx; rw [hq] at hw; exact absurd hw (by decide)
      rw [Function.update_noteq hne]
      exact hw
    · have hu := spentSpec_update e s.nextIndex s.phase (TaskPhase.settled false) i hlt
      rw [hq] at hu
      have hsp := inv.hspent
      unfold spentSpec at hsp ⊢
      simp only [writeErrSt]
      simp at hu
      linarith
  | writeRej i rest hwq hbrk =>
    have hq : s.phase i = TaskPhase.queued :=
      inv.hwqPhase i (by rw [hwq]; exact List.mem_cons_self i rest)
    have hlt : i < s.nextIndex := lt_nextIndex_of_phase inv hq (by decide)
    have hnd := inv.hwqNodup
    rw [hwq] at hnd
    have hnotin : i ∉ rest := (List.nodup_cons.mp hnd).1
    refine ⟨?_, ?_, ?_, ?_, ?_, ?_, inv.hlines, ?_, ?_, ?_, ?_, ?_, ?_, ?_⟩
    · intro j hj
      simp only [writeRejSt] at hj ⊢
      rw [Function.update_noteq (by omega : j ≠ i)]
      exact inv.hub j hj
    · intro j hj
      simp only [writeRejSt] at hj ⊢
      by_cases hje : j = i
      · subst hje; rw [Function.update_same]; exact fun h => absurd h (by decide)
      · rw [Function.update_noteq hje]; exact inv.hstarted j hj
    · have hu := phaseCount_update s.nextIndex s.phase (TaskPhase.settled false) i hlt
        TaskPhase.isDone
      rw [hq] at hu
      simp only [TaskPhase.isDone] at hu
      have hcmp := inv.hcompleted
      simp only [writeRejSt]
      simp at hu
      omega
    · have hu := phaseCount_update s.nextIndex s.phase (TaskPhase.settled false) i hlt
        TaskPhase.isDoneOk
      rw [hq] at hu
      simp only [TaskPhase.isDoneOk] at hu
      have hokk := inv.hok
      simp only [writeRejSt]
      simp at hu
      omega
    · have hu := phaseCount_update s.nextIndex s.phase (TaskPhase.settled false) i hlt
        TaskPhase.isDoneErr
      rw [hq] at hu
      simp only [TaskPhase.isDoneErr] at hu
      have herr2 := inv.herr
      simp only [writeRejSt]
      simp at hu
      omega
    · have hu := phaseCount_update s.nextIndex s.phase (TaskPhase.settled false) i hlt
        TaskPhase.isInFlight
      rw [hq] at hu
      simp only [TaskPhase.isInFlight] at hu
      have hb := inv.hbound
      unfold inFlightCount at hb ⊢
      simp only [writeRejSt]
      simp at hu
      omega
    · simp only [writeRejSt]
      rw [inv.hsplit, hwq]
      simp
    · intro hb; simp only [writeRejSt] at hb; rw [hbrk] at hb; cases hb
    · intro j hj
      simp only [writeRejSt] at hj ⊢
      have hjrest : j ∈ s.wq := by rw [hwq]; exact List.mem_cons_of_mem i hj
      have hqj := inv.hwqPhase j hjrest
      have hne : j ≠ i := fun hx => hnotin (hx ▸ hj)
      rw [Function.update_noteq hne]
      exact hqj
    · intro j hqj
      simp only [writeRejSt] at hqj ⊢
      by_cases hje : j = i
      · subst hje; rw [Function.update_same] at hqj; exact absurd hqj (by decide)
      · rw [Function.update_noteq hje] at hqj
        have := inv.hqueuedInWq j hqj
        rw [hwq] at this
        rcases List.mem_cons.mp this with hx | hx
        · exact absurd hx hje
        · exact hx
    · simp only [writeRejSt]
      exact (List.nodup_cons.mp hnd).2
    · intro j hj
      simp only [writeRejSt] at hj ⊢
      have hw := inv.hwritten j hj
      have hne : j ≠ i := by
        intro hx; subst hx; rw [hq] at hw; exact absurd hw (by decide)
      rw [Function.update_noteq hne]
      exact hw
    · have hu := spentSpec_update e s.nextIndex s.phase (TaskPhase.settled false) i hlt
      rw [hq] at hu
      have hsp := inv.hspent
      unfold spentSpec at hsp ⊢
      simp only [writeRejSt]
      simp at hu
      linarith
  | removeTask i b hsb =>
    have hlt : i < s.nextIndex := lt_nextIndex_of_phase inv hsb (by simp)
    refine ⟨?_, ?_, ?_, ?_, ?_, ?_, inv.hlines, inv.hsplit, inv.hdropped, ?_, ?_,
      inv.hwqNodup, ?_, ?_⟩
    · intro j hj
      simp only [removeSt] at hj ⊢
      rw [Function.update_noteq (by omega : j ≠ i)]
      exact inv.hub j hj
    · intro j hj
      simp only [removeSt] at hj ⊢
      by_cases hje : j = i
      · subst hje; rw [Function.update_same]; exact fun h => absurd h (by simp)
      · rw [Function.update_noteq hje]; exact inv.hstarted j hj
    · have hu := phaseCount_update s.nextIndex s.phase (TaskPhase.removed b) i hlt
        TaskPhase.isDone
      rw [hsb] at hu
      simp only [TaskPhase.isDone] at hu
      have hcmp := inv.hcompleted
      simp only [removeSt]
      simp at hu
      omega
    · have hu := phaseCount_update s.nextIndex s.phase (TaskPhase.removed b) i hlt
        TaskPhase.isDoneOk
      rw [hsb] at hu
      have hok2 := inv.hok
      simp only [removeSt]
      have hsame : TaskPhase.isDoneOk (TaskPhase.settled b)
          = TaskPhase.isDoneOk (TaskPhase.removed b) := by cases b <;> rfl
      rw [hsame] at hu
      omega
    · have hu := phaseCount_update s.nextIndex s.phase (TaskPhase.removed b) i hlt
        TaskPhase.isDoneErr
      rw [hsb] at hu
      have herr2 := inv.herr
      simp only [removeSt]
      have hsame : TaskPhase.isDoneErr (TaskPhase.settled b)
          = TaskPhase.isDoneErr (TaskPhase.removed b) := by cases b <;> rfl
      rw [hsame] at hu
      omega
    · have hu := phaseCount_update s.nextIndex s.phase (TaskPhase.removed b) i hlt
        TaskPhase.isInFlight
      rw [hsb] at hu
      simp only [TaskPhase.isInFlight] at hu
      have hb := inv.hbound
      unfold inFlightCount at hb ⊢
      simp only [removeSt]
      simp at hu
      omega
    · intro j hj
      have hqj := inv.hwqPhase j hj
      have hne : j ≠ i := by
        intro hx; subst hx; rw [hsb] at hqj; exact absurd hqj (by simp)
      simp only [removeSt]
      rw [Function.update_noteq hne]
      exact hqj
    · intro j hqj
      simp only [removeSt] at hqj
      by_cases hje : j = i
      · subst hje; rw [Function.update_same] at hqj; exact absurd hqj (by simp)
      · rw [Function.update_noteq hje] at hqj
        exact inv.hqueuedInWq j hqj
    · intro j hj
      simp only [removeSt] at hj ⊢
      have hw := inv.hwritten j hj
      by_cases hje : j = i
      · subst hje
        rw [hsb] at hw
        cases b with
        | false => exact absurd hw (by decide)
        | true =>
          rw [Function.update_same]
          rfl
      · rw [Function.update_noteq hje]
        exact hw
    · have hu := spentSpec_update e s.nextIndex s.phase (TaskPhase.removed b) i hlt
      rw [hsb] at hu
      have hsp := inv.hspent
      unfold spentSpec at hsp ⊢
      simp only [removeSt]
      simp at hu
      linarith

lemma schedSteps_inv {e : SchedEnv} {s t : SchedSt} (inv : SchedInv e s)
    (h : Relation.ReflTransGen (SchedStep e) s t) : SchedInv e t := by
  induction h with
  | refl => exact inv
  | tail _ hstep ih => exact schedStep_inv ih hstep

lemma schedReachable_inv {e : SchedEnv} {s : SchedSt}
    (h : SchedReachable e s) : SchedInv e s :=
  schedSteps_inv (schedInv_init e) h

lemma doneOk_doneErr_disjoint (ph : TaskPhase) :
    ¬ (ph.isDoneOk = true ∧ ph.isDoneErr = true) := by
  cases ph with
  | settled b => cases b <;> simp [TaskPhase.isDoneOk, TaskPhase.isDoneErr]
  | removed b => cases b <;> simp [TaskPhase.isDoneOk, TaskPhase.isDoneErr]
  | _ => simp [TaskPhase.isDoneOk, TaskPhase.isDoneErr]

lemma doneErr_persists {e : SchedEnv} {s s' : SchedSt} (inv : SchedInv e s)
    (hstep : SchedStep e s s') {i : Nat}
    (h : (s.phase i).isDoneErr = true) : (s'.phase i).isDoneErr = true := by
  cases hstep with
  | skipBlank l rest hrem hb => exact h
  | startTask l rest hrem hnb hlt =>
    simp only [startTaskSt]
    have hne : i ≠ s.nextIndex := by
      intro hx; subst hx
      rw [inv.hub s.nextIndex (le_refl _)] at h
      exact absurd h (by decide)
    rw [Function.update_noteq hne]
    exact h
  | respondFail j msg hc hcall =>
    simp only [respondFailSt]
    have hne : i ≠ j := by
      intro hx; subst hx; rw [hc] at h; exact absurd h (by decide)
    rw [Function.update_noteq hne]
    exact h
  | respondOk j cs hc hcall =>
    simp only [respondOkSt]
    have hne : i ≠ j := by
      intro hx; subst hx; rw [hc] at h; exact absurd h (by decide)
    rw [Function.update_noteq hne]
    exact h
  | writeOk j rest hwq hbrk hwf =>
    simp only [writeOkSt]
    have hq := inv.hwqPhase j (by rw [hwq]; exact List.mem_cons_self j rest)
    have hne : i ≠ j := by
      intro hx; subst hx; rw [hq] at h; exact absurd h (by decide)
    rw [Function.update_noteq hne]
    exact h
  | writeErr j rest hwq hbrk hwf =>
    simp only [writeErrSt]
    by_cases hie : i = j
    · subst hie; rw [Function.update_same]; rfl
    · rw [Function.update_noteq hie]; exact h
  | writeRej j rest hwq hbrk =>
    simp only [writeRejSt]
    by_cases hie : i = j
    · subst hie; rw [Function.update_same]; rfl
    · rw [Function.update_noteq hie]; exact h
  | removeTask j b hsb =>
    simp only [removeSt]
    by_cases hie : i = j
    · subst hie
      rw [hsb] at h
      cases b with
      | true => exact absurd h (by decide)
      | false => rw [Function.update_same]; rfl
    · rw [Function.update_noteq hie]; exact h

lemma doneErr_persists_steps {e : SchedEnv} {s t : SchedSt} (inv : SchedInv e s)
    (hsteps : Relation.ReflTransGen (SchedStep e) s t) {i : Nat}
    (h : (s.phase i).isDoneErr = true) : (t.phase i).isDoneErr = true := by
  induction hsteps with
  | refl => exact h
  | tail hst hstep ih => exact doneErr_persists (schedSteps_inv inv hst) hstep ih

lemma broken_persists {e : SchedEnv} {s s' : SchedSt} (hstep : SchedStep e s s')
    (hb : s.broken = true) : s'.broken = true ∧ s'.written = s.written := by
  cases hstep with
  | skipBlank l rest hrem hbl => exact ⟨hb, rfl⟩
  | startTask l rest hrem hnb hlt => exact ⟨hb, rfl⟩
  | respondFail i msg hc hcall => exact ⟨hb, rfl⟩
  | respondOk i cs hc hcall => exact ⟨hb, rfl⟩
  | writeOk i rest hwq hbrk hwf => rw [hb] at hbrk; cases hbrk
  | writeErr i rest hwq hbrk hwf => rw [hb] at hbrk; cases hbrk
  | writeRej i rest hwq hbrk => exact ⟨hb, rfl⟩
  | removeTask i b hsb => exact ⟨hb, rfl⟩

lemma broken_persists_steps {e : SchedEnv} {s t : SchedSt}
    (hsteps : Relation.ReflTransGen (SchedStep e) s t)
    (hb : s.broken = true) : t.broken = true ∧ t.written = s.written := by
  induction hsteps with
  | refl => exact ⟨hb, rfl⟩
  | tail hst hstep ih =>
    obtain ⟨h1, h2⟩ := ih
    obtain ⟨h3, h4⟩ := broken_persists hstep h1
    exact ⟨h3, h4.trans h2⟩

/-! ## Progress and termination -/

/-- Termination measure of a state. -/
def stateMeasure (s : SchedSt) : Nat :=
  4 * s.remaining.length
    + ((List.range s.nextIndex).map (fun i => (s.phase i).weight)).sum

lemma schedStep_measure {e : SchedEnv} {s s' : SchedSt} (inv : SchedInv e s)
    (hstep : SchedStep e s s') : stateMeasure s' < stateMeasure s := by
  cases hstep with
  | skipBlank l rest hrem hb =>
    unfold stateMeasure
    simp only [skipBlankSt]
    rw [hrem]
    simp only [List.length_cons]
    omega
  | startTask l rest hrem hnb hlt =>
    unfold stateMeasure
    simp only [startTaskSt]
    have hsum := sum_range_map_snoc (fun _ ph => ph.weight) s.phase TaskPhase.calling
      s.nextIndex
    rw [hsum, hrem]
    simp only [List.length_cons, TaskPhase.weight_unstarted, TaskPhase.weight_calling, TaskPhase.weight_queued, TaskPhase.weight_settled, TaskPhase.weight_removed]
    omega
  | respondFail i msg hc hcall =>
    have hlt := lt_nextIndex_of_phase inv hc (by decide)
    have hu := sum_range_map_update (fun _ ph => ph.weight) s.phase
      (TaskPhase.settled false) s.nextIndex i hlt
    rw [hc] at hu
    unfold stateMeasure
    simp only [respondFailSt]
    simp only [TaskPhase.weight_unstarted, TaskPhase.weight_calling, TaskPhase.weight_queued, TaskPhase.weight_settled, TaskPhase.weight_removed] at hu
    omega
  | respondOk i cs hc hcall =>
    have hlt := lt_nextIndex_of_phase inv hc (by decide)
    have hu := sum_range_map_update (fun _ ph => ph.weight) s.phase
      TaskPhase.queued s.nextIndex i hlt
    rw [hc] at hu
    unfold stateMeasure
    simp only [respondOkSt]
    simp only [TaskPhase.weight_unstarted, TaskPhase.weight_calling, TaskPhase.weight_queued, TaskPhase.weight_settled, TaskPhase.weight_removed] at hu
    omega
  | writeOk i rest hwq hbrk hwf =>
    have hq := inv.hwqPhase i (by rw [hwq]; exact List.mem_cons_self i rest)
    have hlt := lt_nextIndex_of_phase inv hq (by decide)
    have hu := sum_range_map_update (fun _ ph => ph.weight) s.phase
      (TaskPhase.settled true) s.nextIndex i hlt
    rw [hq] at hu
    unfold stateMeasure
    simp only [writeOkSt]
    simp only [TaskPhase.weight_unstarted, TaskPhase.weight_calling, TaskPhase.weight_queued, TaskPhase.weight_settled, TaskPhase.weight_removed] at hu
    omega
  | writeErr i rest hwq hbrk hwf =>
    have hq := inv.hwqPhase i (by rw [hwq]; exact List.mem_cons_self i rest)
    have hlt := lt_nextIndex_of_phase inv hq (by decide)
    have hu := sum_range_map_update (fun _ ph => ph.weight) s.phase
      (TaskPhase.settled false) s.nextIndex i hlt
    rw [hq] at hu
    unfold stateMeasure
    simp only [writeErrSt]
    simp only [TaskPhase.weight_unstarted, TaskPhase.weight_calling, TaskPhase.weight_queued, TaskPhase.weight_settled, TaskPhase.weight_removed] at hu
    omega
  | writeRej i rest hwq hbrk =>
    have hq := inv.hwqPhase i (by rw [hwq]; exact List.mem_cons_self i rest)
    have hlt := lt_nextIndex_of_phase inv hq (by decide)
    have hu := sum_range_map_update (fun _ ph => ph.weight) s.phase
      (TaskPhase.settled false) s.nextIndex i hlt
    rw [hq] at hu
    unfold stateMeasure
    simp only [writeRejSt]
    simp only [TaskPhase.weight_unstarted, TaskPhase.weight_calling, TaskPhase.weight_queued, TaskPhase.weight_settled, TaskPhase.weight_removed] at hu
    omega
  | removeTask i b hsb =>
    have hlt := lt_nextIndex_of_phase inv hsb (by simp)
    have hu := sum_range_map_update (fun _ ph => ph.weight) s.phase
      (TaskPhase.removed b) s.nextIndex i hlt
    rw [hsb] at hu
    unfold stateMeasure
    simp only [removeSt]
    simp only [TaskPhase.weight_unstarted, TaskPhase.weight_calling, TaskPhase.weight_queued, TaskPhase.weight_settled, TaskPhase.weight_removed] at hu
    omega

lemma step_from_inflight {e : SchedEnv} {s : SchedSt} (inv : SchedInv e s)
    (h : inFlightCount s ≠ 0) : ∃ s', SchedStep e s s' := by
  obtain ⟨i, hi, hif⟩ : ∃ i, i < s.nextIndex ∧ (s.phase i).isInFlight = true := by
    by_contra hno
    push_neg at hno
    have hz : inFlightCount s = 0 := by
      unfold inFlightCount
      refine (phaseCount_eq_zero_iff _ _ _).mpr ?_
      intro i hilt
      have := hno i hilt
      cases hx : (s.phase i).isInFlight
      · rfl
      · exact absurd hx this
    exact h hz
  cases hph : s.phase i with
  | unstarted => rw [hph] at hif; exact absurd hif (by decide)
  | calling =>
    cases hcall : callOpenRouter (e.fetches i) with
    | error msg => exact ⟨_, SchedStep.respondFail s i msg hph hcall⟩
    | ok cs => exact ⟨_, SchedStep.respondOk s i cs hph hcall⟩
  | queued =>
    have hmem := inv.hqueuedInWq i hph
    cases hwq : s.wq with
    | nil => rw [hwq] at hmem; exact absurd hmem (List.not_mem_nil i)
    | cons j rest =>
      cases hbrk : s.broken with
      | true => exact ⟨_, SchedStep.writeRej s j rest hwq hbrk⟩
      | false =>
        cases hwf : e.writeFails s.written.length with
        | false => exact ⟨_, SchedStep.writeOk s j rest hwq hbrk hwf⟩
        | true => exact ⟨_, SchedStep.writeErr s j rest hwq hbrk hwf⟩
  | settled b => exact ⟨_, SchedStep.removeTask s i b hph⟩
  | removed b => rw [hph] at hif; exact absurd hif (by simp [TaskPhase.isInFlight])

lemma sched_progress {e : SchedEnv} {s : SchedSt} (inv : SchedInv e s)
    (hmax : 1 ≤ e.maxConcurrent) (hnt : ¬ SchedTerminal s) :
    ∃ s', SchedStep e s s' := by
  by_cases hrem : s.remaining = []
  · have hcnt : inFlightCount s ≠ 0 := fun hz => hnt ⟨hrem, hz⟩
    exact step_from_inflight inv hcnt
  · obtain ⟨l, rest, hl⟩ : ∃ l rest, s.remaining = l :: rest := by
      cases hx : s.remaining with
      | nil => exact absurd hx hrem
      | cons a b => exact ⟨a, b, rfl⟩
    by_cases hb : jsTrim l = ""
    · exact ⟨_, SchedStep.skipBlank s l rest hl hb⟩
    · by_cases hlt : inFlightCount s < e.maxConcurrent
      · exact ⟨_, SchedStep.startTask s l rest hl hb hlt⟩
      · have hcnt : inFlightCount s ≠ 0 := by omega
        exact step_from_inflight inv hcnt

lemma sched_reaches_terminal {e : SchedEnv} (hmax : 1 ≤ e.maxConcurrent) :
    ∀ m s, stateMeasure s = m → SchedReachable e s →
      ∃ t, Relation.ReflTransGen (SchedStep e) s t ∧ SchedTerminal t := by
  intro m
  induction m using Nat.strong_induction_on with
  | _ m ih =>
    intro s hM hreach
    by_cases ht : SchedTerminal s
    · exact ⟨s, Relation.ReflTransGen.refl, ht⟩
    · have inv := schedReachable_inv hreach
      obtain ⟨s', hstep⟩ := sched_progress inv hmax ht
      have hdec : stateMeasure s' < m := by
        have := schedStep_measure inv hstep
        omega
      obtain ⟨t, hsteps, htt⟩ :=
        ih (stateMeasure s') hdec s' rfl (hreach.tail hstep)
      exact ⟨t, Relation.ReflTransGen.head hstep hsteps, htt⟩

lemma phaseCount_done_split (n : Nat) (f : Nat → TaskPhase) :
    phaseCount n f TaskPhase.isDone
      = phaseCount n f TaskPhase.isDoneOk + phaseCount n f TaskPhase.isDoneErr := by
  induction n with
  | zero => rfl
  | succ n ih =>
    rw [phaseCount_succ, phaseCount_succ, phaseCount_succ, ih]
    have hsplit : (if (f n).isDone then 1 else 0)
        = (if (f n).isDoneOk then 1 else 0) + (if (f n).isDoneErr then 1 else 0) := by
      cases f n with
      | unstarted => rfl
      | calling => rfl
      | queued => rfl
      | settled b => cases b <;> rfl
      | removed b => cases b <;> rfl
    omega

lemma terminal_phase_removed {e : SchedEnv} {s : SchedSt} (inv : SchedInv e s)
    (hfl : inFlightCount s = 0) {i : Nat} (hi : i < s.nextIndex) :
    ∃ b, s.phase i = TaskPhase.removed b := by
  have hni := (phaseCount_eq_zero_iff s.nextIndex s.phase TaskPhase.isInFlight).mp hfl i hi
  have hns := inv.hstarted i hi
  cases hph : s.phase i with
  | unstarted => exact absurd hph hns
  | calling => rw [hph] at hni; exact absurd hni (by decide)
  | queued => rw [hph] at hni; exact absurd hni (by decide)
  | settled b => rw [hph] at hni; exact absurd hni (by simp [TaskPhase.isInFlight])
  | removed b => exact ⟨b, rfl⟩

/-! ## Concrete runs -/

/-- A fully-known pricing: one dollar per request, free tokens. -/
def pricingB : OpenRouterModelPricing :=
  { promptPerTokenUSD := 0
    completionPerTokenUSD := 0
    requestUSD := 1
    modelId := "m"
    canonicalSlug := none
    known := { prompt := true, completion := true, request := true }
    raw := { prompt := some "0", completion := some "0", request := some "1" } }

/-- A successful response body. -/
def okBody : RespBody :=
  { content := JsContent.str "c", reasoning := none, usage := none }

/-- The corresponding successful call result. -/
def csOk : CallSuccess := { content := "c", reasoning := none, usage := none }

/-- Two prompts, bound 2, every remote call a network error. -/
def envA : SchedEnv :=
  { lines := ["a", "b"]
    maxConcurrent := 2
    pricing := none
    fetches := fun _ => FetchOutcome.netErr "boom"
    writeFails := fun _ => false }

/-- One prompt, tracked pricing, successful call, failing sink write. -/
def envB : SchedEnv :=
  { lines := ["a"]
    maxConcurrent := 1
    pricing := some pricingB
    fetches := fun _ => FetchOutcome.resp true 200 "" okBody
    writeFails := fun _ => true }

/-- Two prompts, bound 2, successful calls, first sink write fails. -/
def envC : SchedEnv :=
  { lines := ["a", "b"]
    maxConcurrent := 2
    pricing := none
    fetches := fun _ => FetchOutcome.resp true 200 "" okBody
    writeFails := fun _ => true }

def sA1 : SchedSt := startTaskSt (initSt envA) ["b"]

def sA2 : SchedSt := startTaskSt sA1 []

def sA3 : SchedSt := respondFailSt sA2 0

lemma reachA1 : SchedReachable envA sA1 :=
  Relation.ReflTransGen.single
    (SchedStep.startTask (initSt envA) "a" ["b"] rfl (by decide) (by decide))

lemma reachA2 : SchedReachable envA sA2 :=
  Relation.ReflTransGen.tail reachA1
    (SchedStep.startTask sA1 "b" [] rfl (by decide) (by decide))

lemma reachA3 : SchedReachable envA sA3 :=
  Relation.ReflTransGen.tail reachA2
    (SchedStep.respondFail sA2 0 "boom" (by decide) rfl)

def sB1 : SchedSt := startTaskSt (initSt envB) []

def sB2 : SchedSt := respondOkSt envB sB1 0 none

def sB3 : SchedSt := writeErrSt sB2 0 []

def tB : SchedSt := removeSt sB3 0 false

lemma reachB1 : SchedReachable envB sB1 :=
  Relation.ReflTransGen.single
    (SchedStep.startTask (initSt envB) "a" [] rfl (by decide) (by decide))

lemma reachB2 : SchedReachable envB sB2 :=
  Relation.ReflTransGen.tail reachB1
    (SchedStep.respondOk sB1 0 csOk (by decide) rfl)

lemma reachB3 : SchedReachable envB sB3 :=
  Relation.ReflTransGen.tail reachB2
    (SchedStep.writeErr sB2 0 [] rfl rfl rfl)

lemma reachTB : SchedReachable envB tB :=
  Relation.ReflTransGen.tail reachB3
    (SchedStep.removeTask sB3 0 false (by decide))

lemma terminalTB : SchedTerminal tB :=
  ⟨rfl, by decide⟩

def sC1 : SchedSt := startTaskSt (initSt envC) ["b"]

def sC2 : SchedSt := startTaskSt sC1 []

def sC3 : SchedSt := respondOkSt envC sC2 0 none

def sC4 : SchedSt := respondOkSt envC sC3 1 none

def sC5 : SchedSt := writeErrSt sC4 0 [1]

def sC6 : SchedSt := writeRejSt sC5 1 []

def sC7 : SchedSt := removeSt sC6 0 false

def tC : SchedSt := removeSt sC7 1 false

lemma reachTC : SchedReachable envC tC :=
  Relation.ReflTransGen.tail (Relation.ReflTransGen.tail (Relation.ReflTransGen.tail
    (Relation.ReflTransGen.tail (Relation.ReflTransGen.tail (Relation.ReflTransGen.tail
      (Relation.ReflTransGen.tail (Relation.ReflTransGen.single
        (SchedStep.startTask (initSt envC) "a" ["b"] rfl (by decide) (by decide)))
        (SchedStep.startTask sC1 "b" [] rfl (by decide) (by decide)))
      (SchedStep.respondOk sC2 0 csOk (by decide) rfl))
    (SchedStep.respondOk sC3 1 csOk (by decide) rfl))
    (SchedStep.writeErr sC4 0 [1] rfl rfl rfl))
    (SchedStep.writeRej sC5 1 [] rfl rfl))
    (SchedStep.removeTask sC6 0 false (by decide)))
    (SchedStep.removeTask sC7 1 false (by decide))

lemma terminalTC : SchedTerminal tC :=
  ⟨rfl, by decide⟩

/-! ## Claim C1 -/

/-- Claim C1: for every prompts input and configured bound `≥ 1`, the
in-flight set never exceeds `maxConcurrent` at any reachable point, and
a new task is started only from a state where the in-flight set was
observed strictly below the bound (the exit condition of
`waitForSlot`). -/
theorem inflight_never_exceeds_max (e : SchedEnv) (s : SchedSt)
    (hmax : 1 ≤ e.maxConcurrent) (hreach : SchedReachable e s) :
    inFlightCount s ≤ e.maxConcurrent ∧
    (∀ s', SchedStep e s s' → s.nextIndex < s'.nextIndex →
      inFlightCount s < e.maxConcurrent) := by
  refine ⟨(schedReachable_inv hreach).hbound, ?_⟩
  intro s' hstep hinc
  cases hstep with
  | startTask l rest hrem hnb hlt => exact hlt
  | skipBlank l rest hrem hb => exact absurd hinc (by simp [skipBlankSt])
  | respondFail i msg hc hcall => exact absurd hinc (by simp [respondFailSt])
  | respondOk i cs hc hcall => exact absurd hinc (by simp [respondOkSt])
  | writeOk i rest h1 h2 h3 => exact absurd hinc (by simp [writeOkSt])
  | writeErr i rest h1 h2 h3 => exact absurd hinc (by simp [writeErrSt])
  | writeRej i rest h1 h2 => exact absurd hinc (by simp [writeRejSt])
  | removeTask i b hsb => exact absurd hinc (by simp [removeSt])

/-- Witness for C1 on a concrete two-task run. -/
theorem inflight_never_exceeds_max_witness :
    1 ≤ envA.maxConcurrent ∧ inFlightCount sA2 ≤ envA.maxConcurrent :=
  ⟨by decide, (inflight_never_exceeds_max envA sA2 (by decide) reachA2).1⟩

/-! ## Claim C2 -/

/-- Claim C2 as stated is false on the code: at the reachable state
`sA3` — reached after a task settlement — the counters do satisfy
`completed = ok + err`, but `completed = 1` while two non-blank lines
have already been read from the prompt source. -/
theorem completed_vs_lines_read_counterexample :
    SchedReachable envA sA3 ∧
    sA3.completed = sA3.okCount + sA3.errCount ∧
    sA3.completed = 1 ∧ nonBlankRead envA sA3 = 2 ∧
    sA3.completed ≠ nonBlankRead envA sA3 :=
  ⟨reachA3, rfl, rfl, by decide, by decide⟩

/-- Claim C2 (amended): at every reachable point of every run,
`completed = ok + err`; `completed` never exceeds the number of
non-blank lines read so far (equality can fail while tasks are in
flight); and at run end `completed` equals the total number of
non-blank lines of the input. -/
theorem run_counters_invariant (e : SchedEnv) (s : SchedSt)
    (hreach : SchedReachable e s) :
    s.completed = s.okCount + s.errCount ∧
    s.completed ≤ nonBlankRead e s ∧
    (SchedTerminal s → s.completed = countNonBlank e.lines) := by
  have inv := schedReachable_inv hreach
  refine ⟨?_, ?_, ?_⟩
  · rw [inv.hcompleted, inv.hok, inv.herr, phaseCount_done_split]
  · have h1 : s.completed ≤ s.nextIndex := by
      rw [inv.hcompleted]; exact phaseCount_le _ _ _
    have h2 := inv.hlines
    unfold nonBlankRead
    omega
  · rintro ⟨hrem, hfl⟩
    have hall : ∀ i, i < s.nextIndex → (s.phase i).isDone = true := by
      intro i hi
      obtain ⟨b, hb⟩ := terminal_phase_removed inv hfl hi
      rw [hb]
      rfl
    have hc := inv.hcompleted
    rw [phaseCount_eq_of_all _ _ _ hall] at hc
    have hl := inv.hlines
    rw [hrem] at hl
    have hz : countNonBlank ([] : List String) = 0 := rfl
    omega

/-- Witness for the amended C2 on a completed one-prompt run. -/
theorem run_counters_invariant_witness :
    SchedTerminal tB ∧ tB.completed = tB.okCount + tB.errCount ∧
    tB.completed = countNonBlank envB.lines :=
  ⟨terminalTB, (run_counters_invariant envB tB reachTB).1,
    (run_counters_invariant envB tB reachTB).2.2 terminalTB⟩

/-! ## Claim C3 -/

/-- Claim C3: a failed remote call (network error, non-success status,
empty or non-string content — all of which `callOpenRouter` classifies
as errors) is caught at the task boundary: settling that task
increments `errCount` by exactly one, leaves `okCount`, the output, the
other tasks' phases and the admission input untouched; the failed
task's line is never written later; and the run still drains to a
terminal state. -/
theorem remote_failure_isolated (e : SchedEnv) (s : SchedSt) (i : Nat) (msg : String)
    (hreach : SchedReachable e s) (hc : s.phase i = TaskPhase.calling)
    (hcall : callOpenRouter (e.fetches i) = Except.error msg) :
    SchedStep e s (respondFailSt s i) ∧
    (respondFailSt s i).errCount = s.errCount + 1 ∧
    (respondFailSt s i).okCount = s.okCount ∧
    (respondFailSt s i).completed = s.completed + 1 ∧
    (respondFailSt s i).written = s.written ∧
    (respondFailSt s i).remaining = s.remaining ∧
    (∀ j, j ≠ i → (respondFailSt s i).phase j = s.phase j) ∧
    (∀ t, Relation.ReflTransGen (SchedStep e) (respondFailSt s i) t →
      i ∉ t.written) ∧
    (1 ≤ e.maxConcurrent →
      ∃ t, Relation.ReflTransGen (SchedStep e) (respondFailSt s i) t ∧
        SchedTerminal t) ∧
    (∀ m, callOpenRouter (FetchOutcome.netErr m) = Except.error m) ∧
    (∀ st text body, callOpenRouter (FetchOutcome.resp false st text body)
      = Except.error ("OpenRouter error " ++ toString st ++ ": " ++ text)) ∧
    (∀ st text r u, callOpenRouter (FetchOutcome.resp true st text
        ⟨JsContent.str "", r, u⟩)
      = Except.error "No assistant content returned from OpenRouter.") ∧
    (∀ st text r u, callOpenRouter (FetchOutcome.resp true st text
        ⟨JsContent.absent, r, u⟩)
      = Except.error "No assistant content returned from OpenRouter.") ∧
    (∀ st text r u, callOpenRouter (FetchOutcome.resp true st text
        ⟨JsContent.nonStr, r, u⟩)
      = Except.error "No assistant content returned from OpenRouter.") := by
  have inv := schedReachable_inv hreach
  have hstep : SchedStep e s (respondFailSt s i) :=
    SchedStep.respondFail s i msg hc hcall
  have hreach' : SchedReachable e (respondFailSt s i) := hreach.tail hstep
  have inv' : SchedInv e (respondFailSt s i) := schedStep_inv inv hstep
  refine ⟨hstep, rfl, rfl, rfl, rfl, rfl, ?_, ?_, ?_,
    fun m => rfl, fun st text body => rfl,
    fun st text r u => rfl, fun st text r u => rfl, fun st text r u => rfl⟩
  · intro j hj
    simp only [respondFailSt]
    rw [Function.update_noteq hj]
  · intro t hsteps hmem
    have herr0 : ((respondFailSt s i).phase i).isDoneErr = true := by
      simp only [respondFailSt]
      rw [Function.update_same]
      rfl
    have herrT := doneErr_persists_steps inv' hsteps herr0
    have hokT := (schedSteps_inv inv' hsteps).hwritten i hmem
    exact doneOk_doneErr_disjoint _ ⟨hokT, herrT⟩
  · intro hmax
    exact sched_reaches_terminal hmax (stateMeasure (respondFailSt s i)) _ rfl hreach'

/-- Witness for C3 on a concrete failing call. -/
theorem remote_failure_isolated_witness :
    sA2.phase 0 = TaskPhase.calling ∧
    callOpenRouter (envA.fetches 0) = Except.error "boom" ∧
    (respondFailSt sA2 0).errCount = sA2.errCount + 1 :=
  ⟨by decide, rfl,
    (remote_failure_isolated envA sA2 0 "boom" reachA2 (by decide) rfl).2.1⟩

/-! ## Claim C4 -/

/-- Claim C4: the output lines actually written always form a prefix of
the sequence of `append` calls in call order — each queued write is
issued only after every earlier append's write has completed in full,
so writes are totally ordered by call order and lines of
concurrently-completing tasks never interleave; moreover a single step
completes at most one write, namely the head of the pending queue. -/
theorem writes_serialized_in_call_order (e : SchedEnv) (s : SchedSt)
    (hreach : SchedReachable e s) :
    s.written <+: s.enqueued ∧
    (∀ s', SchedStep e s s' →
      s'.written = s.written ∨
      ∃ i rest, s.wq = i :: rest ∧ s'.written = s.written ++ [i] ∧
        s'.wq = rest) := by
  have inv := schedReachable_inv hreach
  refine ⟨⟨s.dropped ++ s.wq, inv.hsplit.symm⟩, ?_⟩
  intro s' hstep
  cases hstep with
  | writeOk i rest h1 h2 h3 => exact Or.inr ⟨i, rest, h1, rfl, rfl⟩
  | skipBlank l rest hrem hb => exact Or.inl rfl
  | startTask l rest hrem hnb hlt => exact Or.inl rfl
  | respondFail i msg hc hcall => exact Or.inl rfl
  | respondOk i cs hc hcall => exact Or.inl rfl
  | writeErr i rest h1 h2 h3 => exact Or.inl rfl
  | writeRej i rest h1 h2 => exact Or.inl rfl
  | removeTask i b hsb => exact Or.inl rfl

/-- Witness for C4 on a completed run. -/
theorem writes_serialized_in_call_order_witness :
    tB.written <+: tB.enqueued :=
  (writes_serialized_in_call_order envB tB reachTB).1

/-! ## Claim C5 -/

/-- Claim C5 as stated is false on the code: in the concrete run
`envB`, the single sink write fails, yet the run reaches its normal
terminal state; the failure is recorded as that task's per-task error
(`err = 1`, `completed = 1`) instead of aborting the run. -/
theorem sink_write_failure_fatal_counterexample :
    SchedReachable envB tB ∧ SchedTerminal tB ∧ tB.broken = true ∧
    tB.errCount = 1 ∧ tB.okCount = 0 ∧ tB.completed = 1 :=
  ⟨reachTB, terminalTB, rfl, rfl, rfl, rfl⟩

/-- Claim C5 (amended): a sink write failure is absorbed at the
boundary of the task whose write failed: it is recorded as that task's
per-task error, breaks the write chain, leaves every other task's
phase, the counters of other outcomes and the admission input
untouched, and the run still drains to a terminal state instead of
propagating the failure out of the scheduler. -/
theorem sink_write_failure_absorbed (e : SchedEnv) (s : SchedSt) (i : Nat)
    (rest : List Nat) (hreach : SchedReachable e s) (hwq : s.wq = i :: rest)
    (hbrk : s.broken = false) (hwf : e.writeFails s.written.length = true) :
    SchedStep e s (writeErrSt s i rest) ∧
    (writeErrSt s i rest).errCount = s.errCount + 1 ∧
    (writeErrSt s i rest).completed = s.completed + 1 ∧
    (writeErrSt s i rest).okCount = s.okCount ∧
    (writeErrSt s i rest).remaining = s.remaining ∧
    (writeErrSt s i rest).broken = true ∧
    (∀ j, j ≠ i → (writeErrSt s i rest).phase j = s.phase j) ∧
    (1 ≤ e.maxConcurrent →
      ∃ t, Relation.ReflTransGen (SchedStep e) (writeErrSt s i rest) t ∧
        SchedTerminal t) := by
  have hstep : SchedStep e s (writeErrSt s i rest) :=
    SchedStep.writeErr s i rest hwq hbrk hwf
  refine ⟨hstep, rfl, rfl, rfl, rfl, rfl, ?_, ?_⟩
  · intro j hj
    simp only [writeErrSt]
    rw [Function.update_noteq hj]
  · intro hmax
    exact sched_reaches_terminal hmax (stateMeasure (writeErrSt s i rest)) _ rfl
      (hreach.tail hstep)

/-- Witness for the amended C5 on the concrete failing write. -/
theorem sink_write_failure_absorbed_witness :
    sB2.wq = 0 :: [] ∧ sB2.broken = false ∧
    envB.writeFails sB2.written.length = true ∧
    (writeErrSt sB2 0 []).errCount = sB2.errCount + 1 :=
  ⟨rfl, rfl, rfl,
    (sink_write_failure_absorbed envB sB2 0 [] reachB2 rfl rfl rfl).2.1⟩

/-! ## Claim C6 -/

lemma tB_spentUsd : tB.spentUsd = 1 := by
  norm_num [tB, sB3, sB2, sB1, removeSt, writeErrSt, respondOkSt, startTaskSt, initSt,
    spendDelta, canTrackSpend, calculateOpenRouterSpendUSD, envB, pricingB]

/-- Claim C6 as stated is false on the code: in the run `envB`, pricing
is fully known, the remote call succeeds (adding its spend) but the
sink write fails, so the task is counted `err`; at the terminal state
`ok = 0`, so the claimed sum over ok tasks is `0`, yet the accumulated
spend is `1`. -/
theorem spend_over_ok_tasks_counterexample :
    SchedReachable envB tB ∧ SchedTerminal tB ∧ canTrackSpend envB = true ∧
    tB.okCount = 0 ∧ tB.spentUsd = 1 ∧ tB.spentUsd ≠ 0 :=
  ⟨reachTB, terminalTB, rfl, rfl, tB_spentUsd, by rw [tB_spentUsd]; norm_num⟩

/-- Claim C6 (amended): the accumulated spend is `0` whenever pricing
is not fully known; otherwise the final spend is the sum of the
per-task spends over exactly the tasks whose remote call succeeded
(this includes a task recorded as `err` because its sink write failed,
since the code adds the spend before awaiting the write); each
successful call's contribution is
`perRequestUSD + promptTokens*promptRate + completionTokens*completionRate`
with absent token counts defaulting to `0`, and failed calls
contribute `0`. -/
theorem spend_accumulates_over_call_successes (e : SchedEnv) (s : SchedSt)
    (hreach : SchedReachable e s) :
    (canTrackSpend e = false → s.spentUsd = 0) ∧
    (SchedTerminal s →
      s.spentUsd = ((List.range s.nextIndex).map (callDelta e)).sum) ∧
    (∀ p cs i, e.pricing = some p → canTrackSpend e = true →
      callOpenRouter (e.fetches i) = Except.ok cs →
      callDelta e i
        = p.requestUSD
          + (((cs.usage.bind (fun u => u.prompt_tokens)).getD 0 : Nat) : ℚ)
            * p.promptPerTokenUSD
          + (((cs.usage.bind (fun u => u.completion_tokens)).getD 0 : Nat) : ℚ)
            * p.completionPerTokenUSD) ∧
    (∀ i msg, callOpenRouter (e.fetches i) = Except.error msg →
      callDelta e i = 0) := by
  have inv := schedReachable_inv hreach
  refine ⟨?_, ?_, ?_, ?_⟩
  · intro hct
    rw [inv.hspent]
    unfold spentSpec
    refine List.sum_eq_zero ?_
    intro x hx
    rw [List.mem_map] at hx
    obtain ⟨j, hj, hxe⟩ := hx
    have hz : callDelta e j = 0 := by
      unfold callDelta spendDelta
      cases callOpenRouter (e.fetches j) with
      | error m => rfl
      | ok cs =>
        cases hp : e.pricing with
        | none => rfl
        | some p => simp [hct]
    rw [← hxe, hz]
    simp
  · rintro ⟨hrem, hfl⟩
    rw [inv.hspent]
    unfold spentSpec
    refine congrArg List.sum (List.map_congr_left ?_)
    intro j hj
    have hjlt := List.mem_range.mp hj
    obtain ⟨b, hb⟩ := terminal_phase_removed inv hfl hjlt
    rw [hb]
    simp
  · intro p cs i hp hct hcall
    rw [callDelta_ok e i cs hcall]
    simp only [spendDelta, hp, hct, if_pos]
    simp [calculateOpenRouterSpendUSD]
  · intro i msg h
    exact callDelta_error e i msg h

/-- Witness for the amended C6 on the completed run with tracked
pricing. -/
theorem spend_accumulates_over_call_successes_witness :
    SchedTerminal tB ∧
    tB.spentUsd = ((List.range tB.nextIndex).map (callDelta envB)).sum :=
  ⟨terminalTB,
    (spend_accumulates_over_call_successes envB tB reachTB).2.1 terminalTB⟩

/-! ## Claim C8 -/

/-- Claim C8: once a queued write has failed, the chain stays rejected
for the remainder of the run — from any broken state, `broken` stays
set and not a single further output line is ever written; a queued
append behind the break settles by rejecting: its task is recorded as
`err` and nothing is written; and in the concrete run `envC` the
admission loop and both remote calls still run to completion, with both
tasks recorded `err` and an empty output. -/
theorem broken_chain_rejects_all_later_appends (e : SchedEnv) (s t : SchedSt)
    (hsteps : Relation.ReflTransGen (SchedStep e) s t) (hbrk : s.broken = true) :
    (t.broken = true ∧ t.written = s.written) ∧
    (∀ i rest, s.wq = i :: rest →
      SchedStep e s (writeRejSt s i rest) ∧
      (writeRejSt s i rest).errCount = s.errCount + 1 ∧
      (writeRejSt s i rest).written = s.written ∧
      (writeRejSt s i rest).phase i = TaskPhase.settled false) ∧
    (SchedReachable envC tC ∧ SchedTerminal tC ∧ tC.nextIndex = 2 ∧
      tC.errCount = 2 ∧ tC.okCount = 0 ∧ tC.written = []) := by
  refine ⟨broken_persists_steps hsteps hbrk, ?_,
    reachTC, terminalTC, rfl, rfl, rfl, rfl⟩
  intro i rest hwq
  refine ⟨SchedStep.writeRej s i rest hwq hbrk, rfl, rfl, ?_⟩
  simp only [writeRejSt]
  rw [Function.update_same]

/-- Witness for C8 at the concrete broken state. -/
theorem broken_chain_rejects_all_later_appends_witness :
    sB3.broken = true ∧ sB3.written = sB3.written :=
  ⟨(broken_chain_rejects_all_later_appends envB sB3 sB3
      Relation.ReflTransGen.refl rfl).1.1,
   (broken_chain_rejects_all_later_appends envB sB3 sB3
      Relation.ReflTransGen.refl rfl).1.2⟩
